import Mathlib

/-!
Verification development for the Chill-lsp repository (files
`chill_semantic_parser.py` and `chill_lsp_server.py`).

The Python sources are shallowly embedded below.  Strings are processed as
`List Char`; Python `str.upper`, `str.strip`, `str.split` and the concrete
regular expressions used by the parser are translated into executable Lean
functions.  Character classes follow the ASCII reading of the Python ones
(the source only ever feeds ASCII keywords and identifiers through them).
Python dictionaries are embedded as insertion-ordered association lists with
in-place update, matching dict key order semantics.  A Python function that
can raise is embedded with an `Option`/`Except` result, where `none`/`error`
marks an escaping exception.
-/

namespace Chill

/-! ## Character classes and elementary string operations -/

/-- Python whitespace, as used by `str.strip`, `str.split()` and `\s`. -/
def isPySpace (c : Char) : Bool :=
  c == ' ' || c == '\t' || c == '\n' || c == '\r' || c == '\x0b' || c == '\x0c'

/-- Word characters: letters, digits and underscore (ASCII).  This is the
character set of `str.isalnum() or c == '_'` and of the regex classes
`\w`/`\b` as the source uses them. -/
def isWordChar (c : Char) : Bool :=
  decide ((65 ≤ c.toNat ∧ c.toNat ≤ 90) ∨ (97 ≤ c.toNat ∧ c.toNat ≤ 122) ∨
          (48 ≤ c.toNat ∧ c.toNat ≤ 57) ∨ c.toNat = 95)

/-- The class `[A-Z_]` as used on already-uppercased text. -/
def isUpperIdentStart (c : Char) : Bool :=
  ('A' ≤ c && c ≤ 'Z') || c == '_'

/-- The class `[A-Z0-9_]` as used on already-uppercased text. -/
def isUpperIdentChar (c : Char) : Bool :=
  ('A' ≤ c && c ≤ 'Z') || ('0' ≤ c && c ≤ '9') || c == '_'

/-- The class `[A-Z_]` under `re.IGNORECASE` (ASCII). -/
def isCIIdentStart (c : Char) : Bool :=
  isUpperIdentStart c || ('a' ≤ c && c ≤ 'z')

/-- The class `[A-Z0-9_]` under `re.IGNORECASE` (ASCII). -/
def isCIIdentChar (c : Char) : Bool :=
  isUpperIdentChar c || ('a' ≤ c && c ≤ 'z')

/-- Python `str.upper` on a character list (ASCII model). -/
def upperL (l : List Char) : List Char := l.map Char.toUpper

/-- Python `str.upper` on strings. -/
def upperStr (s : String) : String := String.mk (upperL s.data)

/-- Python `str.strip()` on a character list. -/
def stripL (l : List Char) : List Char :=
  ((l.dropWhile isPySpace).reverse.dropWhile isPySpace).reverse

/-- Python `str.strip()` on strings. -/
def pyStrip (s : String) : String := String.mk (stripL s.data)

/-- Python `str.startswith` (plain prefix test). -/
def strStartsWith (s pre : String) : Bool := pre.data.isPrefixOf s.data

/-- Python `sep.join`-style splitting: `str.split(sep)` for a one-character
separator, keeping empty fields (so splitting the empty string yields one
empty field, exactly as in Python). -/
def splitCharAux (sep : Char) : List Char → List Char → List (List Char)
  | [], acc => [acc.reverse]
  | c :: rest, acc =>
    if c == sep then acc.reverse :: splitCharAux sep rest []
    else splitCharAux sep rest (c :: acc)

/-- Python `str.split(sep)` for a one-character separator. -/
def splitChar (sep : Char) (l : List Char) : List (List Char) :=
  splitCharAux sep l []

/-- Python newline-joining (the join method) with a one-character separator. -/
def joinChar (sep : Char) : List (List Char) → List Char
  | [] => []
  | [x] => x
  | x :: y :: rest => x ++ sep :: joinChar sep (y :: rest)

/-- Python whitespace splitting `str.split()` (no separator): splits on runs
of whitespace and never yields empty fields. -/
def pySplitWsAux : List Char → List Char → List (List Char)
  | [], acc => if acc.isEmpty then [] else [acc.reverse]
  | c :: rest, acc =>
    if isPySpace c then
      if acc.isEmpty then pySplitWsAux rest []
      else acc.reverse :: pySplitWsAux rest []
    else pySplitWsAux rest (c :: acc)

/-- Python `str.split()` with no arguments. -/
def pySplitWs (l : List Char) : List (List Char) := pySplitWsAux l []

/-- Substring test, Python `pat in s` on character lists. -/
def listContainsSub : List Char → List Char → Bool
  | [], pat => pat.isEmpty
  | l@(_ :: rest), pat => pat.isPrefixOf l || listContainsSub rest pat

/-- Substring test, Python `pat in s` on strings. -/
def containsSub (s pat : String) : Bool := listContainsSub s.data pat.data

/-- Python `str.find` helper: first index at which `pat` occurs. -/
def pyFindAux (pat : List Char) : List Char → Nat → Option Nat
  | [], i => if pat.isEmpty then some i else none
  | l@(_ :: rest), i => if pat.isPrefixOf l then some i else pyFindAux pat rest (i + 1)

/-- Python `s.find(pat)`: index of the first occurrence, `-1` if absent. -/
def pyFind (s pat : String) : Int :=
  match pyFindAux pat.data s.data 0 with
  | some n => (n : Int)
  | none => -1

/-- Case-insensitive literal match: consumes `pat` (case-folded) from the
front of the input and returns the rest, the semantics of a literal inside a
pattern compiled with `re.IGNORECASE` (ASCII). -/
def matchLitCI : List Char → List Char → Option (List Char)
  | [], l => some l
  | _ :: _, [] => none
  | p :: ps, c :: cs =>
    if p.toUpper == c.toUpper then matchLitCI ps cs else none

/-- Case-insensitive prefix test (both sides case-folded). -/
def ciPrefixOf : List Char → List Char → Bool
  | [], _ => true
  | _ :: _, [] => false
  | p :: ps, c :: cs => (p.toUpper == c.toUpper) && ciPrefixOf ps cs

/-! ## Comment stripping: `ChillParser._preprocess` -/

/-- Scans for the first closing `*/` and returns the suffix after it, the
behaviour of the non-greedy body of the regex `/\*.*?\*/`. -/
def skipBlock : List Char → Option (List Char)
  | [] => none
  | '*' :: '/' :: rest => some rest
  | _ :: rest => skipBlock rest

/-- One pass of the block-comment substitution (re.sub of the pattern
`/\*.*?\*/` by the empty replacement, with DOTALL): each
`/*` with a later `*/` is removed together with everything between them
(including line breaks, because of `DOTALL`); a `/*` with no later `*/`
matches nothing and is kept.  The fuel argument is the length of the input
and only serves structural termination. -/
def removeBlockAux : Nat → List Char → List Char
  | 0, l => l
  | _ + 1, [] => []
  | f + 1, '/' :: '*' :: rest =>
    match skipBlock rest with
    | some suffix => removeBlockAux f suffix
    | none => '/' :: '*' :: removeBlockAux f rest
  | f + 1, c :: rest => c :: removeBlockAux f rest

/-- The whole block-comment substitution of `_preprocess`. -/
def removeBlockComments (l : List Char) : List Char := removeBlockAux l.length l

/-- Per-line `--` comment removal: the prefix before the first `--` when
one occurs in the line, otherwise the line unchanged. -/
def cutLineComment : List Char → List Char
  | [] => []
  | c :: rest =>
    if c == '-' && rest.head? == some '-' then []
    else c :: cutLineComment rest

/-- Embeds `ChillParser._preprocess`: strip `/* */` block comments from the
whole source, then cut each line at the first `--`, and re-join with
newlines. -/
def ChillParser._preprocess (source : String) : String :=
  let noBlock := removeBlockComments source.data
  let ls := splitChar '\n' noBlock
  String.mk (joinChar '\n' (ls.map cutLineComment))

/-- Number of lines of a text: the length of its newline split. -/
def lineCount (s : String) : Nat := (splitChar '\n' s.data).length

/-! ## Data model of `chill_semantic_parser.py` -/

/-- The `ChillMode` enumeration. -/
inductive ChillMode where
  | INT | BOOL | CHAR | CHARS | BOOLS | SET | RANGE | POWERSET | REF
  | STRUCT | ARRAY | PROC | PROCESS | BUFFER | EVENT | SIGNAL
  | ASSOCIATION | ACCESS | TEXT | DURATION | TIME | USER_DEFINED | UNKNOWN
deriving DecidableEq, Repr

/-- The `.value` string of each `ChillMode` member. -/
def ChillMode.value : ChillMode → String
  | .INT => "INT" | .BOOL => "BOOL" | .CHAR => "CHAR" | .CHARS => "CHARS"
  | .BOOLS => "BOOLS" | .SET => "SET" | .RANGE => "RANGE"
  | .POWERSET => "POWERSET" | .REF => "REF" | .STRUCT => "STRUCT"
  | .ARRAY => "ARRAY" | .PROC => "PROC" | .PROCESS => "PROCESS"
  | .BUFFER => "BUFFER" | .EVENT => "EVENT" | .SIGNAL => "SIGNAL"
  | .ASSOCIATION => "ASSOCIATION" | .ACCESS => "ACCESS" | .TEXT => "TEXT"
  | .DURATION => "DURATION" | .TIME => "TIME" | .USER_DEFINED => "USER"
  | .UNKNOWN => "UNKNOWN"

/-- `CHILL_RESERVED_WORDS` (a Python `set`; embedded as the list of its
literal elements, queried only for membership). -/
def CHILL_RESERVED_WORDS : List String :=
  ["ABSTRACT", "ACCESS", "AFTER", "ALL", "AND", "ANDIF", "ANY",
   "ARRAY", "ASSERT", "AT", "BASED_ON", "BEGIN", "BIN", "BODY",
   "BOOLS", "BUFFER", "BY", "CASE", "CAUSE", "CHARS", "CONTEXT",
   "CONTINUE", "CYCLE", "DCL", "DELAY", "DO", "DOWN", "DYNAMIC",
   "ELSE", "ELSIF", "END", "ESAC", "EVENT", "EVER", "EXCEPTIONS",
   "EXIT", "FI", "FINAL", "FOR", "FORBID", "GENERAL", "GENERIC",
   "GOTO", "GRANT", "IF", "IMPLEMENTS", "IN", "INCOMPLETE", "INIT",
   "INLINE", "INOUT", "INTERFACE", "INVARIANT", "LOC", "MOD",
   "MODE", "MODULE", "NEW", "NEWMODE", "NONREF", "NOPACK", "NOT",
   "OD", "OF", "ON", "OR", "ORIF", "OUT", "PACK", "POS", "POST",
   "POWERSET", "PRE", "PREFIXED", "PRIORITY", "PROC", "PROCESS",
   "RANGE", "READ", "RECEIVE", "REF", "REGION", "REM", "REMOTE",
   "RESULT", "RETURN", "RETURNS", "ROW", "SEIZE", "SELF", "SEND",
   "SET", "SIGNAL", "SIMPLE", "SPEC", "START", "STATIC", "STEP",
   "STOP", "STRUCT", "SYN", "SYNMODE", "TASK", "TEXT", "THEN",
   "THIS", "TIMEOUT", "TO", "UP", "VARYING", "WCHARS", "WHILE",
   "WITH", "WTEXT", "XOR", "NOT_ASSIGNABLE", "ANY_ASSIGN",
   "ANY_DISCRETE", "ANY_INT", "ANY_REAL", "ASSIGNABLE", "CONSTR",
   "DESTR", "REIMPLEMENT"]

/-- `CHILL_PREDEFINED` (a Python `set`; embedded as the list of its literal
elements, queried only for membership). -/
def CHILL_PREDEFINED : List String :=
  ["ABS", "ABSTIME", "ALLOCATE", "ARCCOS", "ARCSIN", "ARCTAN",
   "ASSOCIATE", "CARD", "CONNECT", "COS", "CREATE", "DELETE",
   "DISCONNECT", "DISSOCIATE", "EOLN", "EXISTING", "EXP", "EXPIRED",
   "FIRST", "FLOAT", "GETASSOCIATION", "GETSTACK", "GETTEXTACCESS",
   "GETTEXTINDEX", "GETTEXTRECORD", "GETUSAGE", "INDEXABLE",
   "INTTIME", "ISASSOCIATED", "LAST", "LENGTH", "LN", "LOG", "LOWER",
   "MAX", "MIN", "MODIFY", "NUM", "OUTOFFILE", "PRED", "PTR",
   "READABLE", "READONLY", "READRECORD", "READTEXT", "READWRITE",
   "SAME", "SEQUENCIBLE", "SETTEXTACCESS", "SETTEXTINDEX",
   "SETTEXTRECORD", "SIN", "SIZE", "SQRT", "SUCC", "TAN", "TERMINATE",
   "UPPER", "USAGE", "VARIABLE", "WAIT", "WCHAR", "WHERE",
   "WRITEABLE", "WRITEONLY", "WRITERECORD", "WRITETEXT",
   "INT", "BOOL", "CHAR", "DURATION", "TIME", "ASSOCIATION", "INSTANCE",
   "BYTE", "UBYTE", "UINT", "LONG", "ULONG", "REAL", "LONG_REAL",
   "TRUE", "FALSE", "NULL",
   "DAYS", "HOURS", "MILLISECS", "MINUTES", "SECS",
   "SECONDS", "MICROSECS"]

/-- `DclDefinition` dataclass.  `column_start`/`column_end` are `Int` because
`str.find` can produce `-1`. -/
structure DclDefinition where
  name : String
  mode : ChillMode
  mode_name : Option String := none
  size : Option Int := none
  dimensions : List (Int × Int) := []
  initial_value : Option String := none
  is_static : Bool := false
  is_dynamic : Bool := false
  is_loc : Bool := false
  is_read : Bool := false
  line_number : Nat := 0
  column_start : Int := 0
  column_end : Int := 0
  parent_scope : Option String := none
deriving DecidableEq, Repr

/-- `NewmodeDefinition` dataclass. -/
structure NewmodeDefinition where
  name : String
  base_mode : ChillMode
  base_mode_name : Option String := none
  fields : List (String × DclDefinition) := []
  enum_values : List String := []
  range_low : Option Int := none
  range_high : Option Int := none
  element_mode : Option String := none
  dimensions : List (Int × Int) := []
  ref_mode : Option String := none
  is_packed : Bool := false
  line_number : Nat := 0
  column_start : Int := 0
  column_end : Int := 0
deriving DecidableEq, Repr

/-- `SynDefinition` dataclass. -/
structure SynDefinition where
  name : String
  value : String
  mode : Option String := none
  line_number : Nat := 0
deriving DecidableEq, Repr

/-- `ProcDefinition` dataclass; `parameters` entries are
`(name, mode, direction)`. -/
structure ProcDefinition where
  name : String
  parameters : List (String × String × String) := []
  returns_mode : Option String := none
  is_general : Bool := false
  is_inline : Bool := false
  is_recursive : Bool := false
  exceptions : List String := []
  local_dcls : List (String × DclDefinition) := []
  local_modes : List (String × NewmodeDefinition) := []
  line_start : Nat := 0
  line_end : Nat := 0
  body_start : Nat := 0
deriving DecidableEq, Repr

/-- `ProcessDefinition` dataclass. -/
structure ProcessDefinition where
  name : String
  parameters : List (String × String × String) := []
  priority : Option Int := none
  local_dcls : List (String × DclDefinition) := []
  local_modes : List (String × NewmodeDefinition) := []
  line_start : Nat := 0
  line_end : Nat := 0
deriving DecidableEq, Repr

/-- `ModuleDefinition` dataclass. -/
structure ModuleDefinition where
  name : String
  is_spec : Bool := false
  is_body : Bool := false
  grants : List String := []
  seizes : List String := []
  line_start : Nat := 0
  line_end : Nat := 0
deriving DecidableEq, Repr

/-- `SignalDefinition` dataclass; `parameters` entries are `(name, mode)`. -/
structure SignalDefinition where
  name : String
  parameters : List (String × String) := []
  line_number : Nat := 0
deriving DecidableEq, Repr

/-! ## Python dicts as insertion-ordered association lists -/

/-- `d[k] = v` on a Python dict: update in place when the key exists,
otherwise append at the end (insertion order is preserved). -/
def alInsert (k : String) (v : α) : List (String × α) → List (String × α)
  | [] => [(k, v)]
  | (k1, v1) :: rest =>
    if k1 == k then (k, v) :: rest else (k1, v1) :: alInsert k v rest

/-- `d.get(k)` / `k in d` lookup on a Python dict. -/
def alLookup (k : String) : List (String × α) → Option α
  | [] => none
  | (k1, v1) :: rest => if k1 == k then some v1 else alLookup k rest

/-- `ChillSemanticModel.__init__` state.  `regions` is never written by the
parser and carries no payload here. -/
structure ChillSemanticModel where
  dcls : List (String × DclDefinition) := []
  modes : List (String × NewmodeDefinition) := []
  synonyms : List (String × SynDefinition) := []
  procs : List (String × ProcDefinition) := []
  processes : List (String × ProcessDefinition) := []
  modules : List (String × ModuleDefinition) := []
  signals : List (String × SignalDefinition) := []
  regions : List (String × Unit) := []
  current_scope : String := "GLOBAL"
  scope_stack : List String := []
  module_name : Option String := none
deriving DecidableEq, Repr

/-- `ChillSemanticModel.add_dcl`: stores the declaration under its bare name
and under `scope.name` (the two coincide at global scope). -/
def ChillSemanticModel.add_dcl (m : ChillSemanticModel) (dcl : DclDefinition) :
    ChillSemanticModel :=
  let dcl := { dcl with parent_scope := some m.current_scope }
  let key := if m.current_scope ≠ "GLOBAL"
             then m.current_scope ++ "." ++ dcl.name else dcl.name
  { m with dcls := alInsert key dcl (alInsert dcl.name dcl m.dcls) }

/-- `ChillSemanticModel.get_dcl`: scoped key first, then bare name. -/
def ChillSemanticModel.get_dcl (m : ChillSemanticModel) (name : String) :
    Option DclDefinition :=
  match alLookup (m.current_scope ++ "." ++ name) m.dcls with
  | some d => some d
  | none => alLookup name m.dcls

/-- `ChillSemanticModel.add_mode`. -/
def ChillSemanticModel.add_mode (m : ChillSemanticModel)
    (mode : NewmodeDefinition) : ChillSemanticModel :=
  { m with modes := alInsert mode.name mode m.modes }

/-- `ChillSemanticModel.get_mode`. -/
def ChillSemanticModel.get_mode (m : ChillSemanticModel) (name : String) :
    Option NewmodeDefinition := alLookup name m.modes

/-- `ChillSemanticModel.add_proc`. -/
def ChillSemanticModel.add_proc (m : ChillSemanticModel)
    (proc : ProcDefinition) : ChillSemanticModel :=
  { m with procs := alInsert proc.name proc m.procs }

/-- `ChillSemanticModel.get_proc`. -/
def ChillSemanticModel.get_proc (m : ChillSemanticModel) (name : String) :
    Option ProcDefinition := alLookup name m.procs

/-- `ChillSemanticModel.add_process`. -/
def ChillSemanticModel.add_process (m : ChillSemanticModel)
    (process : ProcessDefinition) : ChillSemanticModel :=
  { m with processes := alInsert process.name process m.processes }

/-- `ChillSemanticModel.add_module`. -/
def ChillSemanticModel.add_module (m : ChillSemanticModel)
    (module : ModuleDefinition) : ChillSemanticModel :=
  { m with modules := alInsert module.name module m.modules }

/-- `ChillSemanticModel.add_synonym`. -/
def ChillSemanticModel.add_synonym (m : ChillSemanticModel)
    (syn : SynDefinition) : ChillSemanticModel :=
  { m with synonyms := alInsert syn.name syn m.synonyms }

/-- `ChillSemanticModel.add_signal`. -/
def ChillSemanticModel.add_signal (m : ChillSemanticModel)
    (sig : SignalDefinition) : ChillSemanticModel :=
  { m with signals := alInsert sig.name sig m.signals }

/-- `ChillSemanticModel.push_scope`. -/
def ChillSemanticModel.push_scope (m : ChillSemanticModel) (name : String) :
    ChillSemanticModel :=
  { m with scope_stack := m.scope_stack ++ [m.current_scope],
           current_scope := name }

/-- `ChillSemanticModel.pop_scope`. -/
def ChillSemanticModel.pop_scope (m : ChillSemanticModel) :
    ChillSemanticModel :=
  match m.scope_stack.getLast? with
  | some s => { m with current_scope := s,
                       scope_stack := m.scope_stack.dropLast }
  | none => m

/-- Stable insertion into a list sorted by the third tuple component, placing
the new element after all elements with a smaller-or-equal key; together with
`sortByLine` this is the stable sort performed by Python `sorted(..., key=
lambda x: x[2])`. -/
def insertByLine (x : String × String × Nat × Nat) :
    List (String × String × Nat × Nat) → List (String × String × Nat × Nat)
  | [] => [x]
  | y :: ys =>
    if y.2.2.1 ≤ x.2.2.1 then y :: insertByLine x ys else x :: y :: ys

/-- Stable sort by line number (third component). -/
def sortByLine (l : List (String × String × Nat × Nat)) :
    List (String × String × Nat × Nat) :=
  l.foldl (fun acc x => insertByLine x acc) []

/-- `ChillSemanticModel.get_all_symbols`: one `(name, kind, line, end_line)`
tuple per entity (scoped `dcls` duplicates whose key contains a dot are
skipped), sorted by line number. -/
def ChillSemanticModel.get_all_symbols (m : ChillSemanticModel) :
    List (String × String × Nat × Nat) :=
  let syms :=
    (m.modes.map (fun e => (e.1, "MODE", e.2.line_number, e.2.line_number)))
    ++ ((m.dcls.filter (fun e => !(e.1.data.contains '.'))).map
        (fun e => (e.1, "DCL", e.2.line_number, e.2.line_number)))
    ++ (m.synonyms.map (fun e => (e.1, "SYN", e.2.line_number, e.2.line_number)))
    ++ (m.procs.map (fun e => (e.1, "PROC", e.2.line_start, e.2.line_end)))
    ++ (m.processes.map (fun e => (e.1, "PROCESS", e.2.line_start, e.2.line_end)))
    ++ (m.modules.map (fun e => (e.1, "MODULE", e.2.line_start, e.2.line_end)))
    ++ (m.signals.map (fun e => (e.1, "SIGNAL", e.2.line_number, e.2.line_number)))
  sortByLine syms

/-! ## Mode helpers -/

/-- The literal `mode_map` dict of `ChillParser._mode_str_to_enum`. -/
def modeMapList : List (String × ChillMode) :=
  [("INT", .INT), ("BOOL", .BOOL), ("CHAR", .CHAR), ("CHARS", .CHARS),
   ("BOOLS", .BOOLS), ("SET", .SET), ("RANGE", .RANGE),
   ("POWERSET", .POWERSET), ("REF", .REF), ("STRUCT", .STRUCT),
   ("ARRAY", .ARRAY), ("PROC", .PROC), ("PROCESS", .PROCESS),
   ("BUFFER", .BUFFER), ("EVENT", .EVENT), ("SIGNAL", .SIGNAL),
   ("ASSOCIATION", .ASSOCIATION), ("ACCESS", .ACCESS), ("TEXT", .TEXT),
   ("DURATION", .DURATION), ("TIME", .TIME),
   ("BYTE", .INT), ("UBYTE", .INT), ("UINT", .INT), ("LONG", .INT),
   ("ULONG", .INT), ("REAL", .INT), ("LONG_REAL", .INT)]

/-- `ChillParser._mode_str_to_enum`.  Python computes
the first whitespace-separated token of the uppercased stripped text when
`mode_str` is truthy, the token `UNKNOWN` otherwise; indexing
`[0]` raises `IndexError` when `mode_str` is non-empty but all whitespace,
embedded as `none`. -/
def ChillParser._mode_str_to_enum (mode_str : String) : Option ChillMode :=
  if mode_str = "" then
    some ((alLookup "UNKNOWN" modeMapList).getD .USER_DEFINED)
  else
    match pySplitWs (stripL (upperL mode_str.data)) with
    | [] => none
    | w :: _ => some ((alLookup (String.mk w) modeMapList).getD .USER_DEFINED)

/-- `ChillParser._infer_base_mode`: the `startswith` cascade, falling back to
`_mode_str_to_enum`. -/
def ChillParser._infer_base_mode (mode_str : String) : Option ChillMode :=
  let mu := String.mk (stripL (upperL mode_str.data))
  if strStartsWith mu "SET" then some .SET
  else if strStartsWith mu "RANGE" then some .RANGE
  else if strStartsWith mu "STRUCT" then some .STRUCT
  else if strStartsWith mu "ARRAY" then some .ARRAY
  else if strStartsWith mu "REF" then some .REF
  else if strStartsWith mu "POWERSET" then some .POWERSET
  else if strStartsWith mu "CHARS" then some .CHARS
  else if strStartsWith mu "BOOLS" then some .BOOLS
  else if strStartsWith mu "PROC" then some .PROC
  else if strStartsWith mu "BUFFER" then some .BUFFER
  else if strStartsWith mu "EVENT" then some .EVENT
  else if strStartsWith mu "SIGNAL" then some .SIGNAL
  else ChillParser._mode_str_to_enum mu

/-- The literal set inside `ChillParser._is_builtin_mode`. -/
def builtinModeNames : List String :=
  ["INT", "BOOL", "CHAR", "CHARS", "BOOLS", "BYTE", "UBYTE",
   "UINT", "LONG", "ULONG", "REAL", "LONG_REAL", "DURATION",
   "TIME", "ASSOCIATION", "INSTANCE"]

/-- `ChillParser._is_builtin_mode`: Python evaluates
`mode_str.upper().split()[0]`, which raises `IndexError` (embedded as
`none`) whenever `mode_str` contains no non-whitespace character. -/
def ChillParser._is_builtin_mode (mode_str : String) : Option Bool :=
  match pySplitWs (upperL mode_str.data) with
  | [] => none
  | w :: _ => some (builtinModeNames.contains (String.mk w))

/-! ## Regular-expression matchers

Each matcher below embeds one concrete `re.match` of the source, with the
backtracking behaviour of the Python engine worked out for that pattern
(leftmost match, greedy quantifiers giving back only when a later required
element fails). -/

/-- An identifier `[A-Z_][A-Z0-9_]*` under `re.IGNORECASE`: the maximal run.
Backtracking into such a group never succeeds for the patterns below because
the group is always followed by something no identifier character can
satisfy. -/
def ciIdentRun : List Char → Option (List Char × List Char)
  | [] => none
  | c :: rest =>
    if isCIIdentStart c then
      some (c :: rest.takeWhile isCIIdentChar, rest.dropWhile isCIIdentChar)
    else none

/-- The dispatch/nesting pattern `^[A-Z_][A-Z0-9_]*\s*:\s*KW` applied (in
`_parse_declarations` and `_find_end`) to a line already uppercased, for a
list of literal alternatives `KW` tried left to right. -/
def headerMatch (u : List Char) (kws : List String) : Bool :=
  match u with
  | [] => false
  | c :: rest =>
    isUpperIdentStart c &&
      (let r2 := rest.dropWhile isUpperIdentChar
       let r3 := r2.dropWhile isPySpace
       match r3 with
       | ':' :: r4 =>
         let r5 := r4.dropWhile isPySpace
         kws.any (fun k => k.data.isPrefixOf r5)
       | _ => false)

/-- The `_parse_dcl` pattern
`DCL\s+([A-Z_][A-Z0-9_]*)\s+([^:;]+)(?:\s*:=\s*([^;]+))?\s*;?` with
`re.IGNORECASE`.  Everything after group 2 can match the empty string, so
the interesting backtracking is `\s+([^:;]+)`: whitespace is itself in
`[^:;]`, hence when the character after the whitespace run is `:`/`;`/end,
the greedy `\s+` gives back exactly one whitespace character, which then
forms the whole of group 2 (this needs the run to have length at least 2);
the same interplay appears inside the optional `\s*:=\s*([^;]+)` group.
Returns `(group1, group2, group3?)`. -/
def dclRegexMatch (l : List Char) :
    Option (List Char × List Char × Option (List Char)) :=
  match matchLitCI "DCL".data l with
  | none => none
  | some r1 =>
    let w1 := r1.takeWhile isPySpace
    let r2 := r1.dropWhile isPySpace
    if w1.isEmpty then none else
    match ciIdentRun r2 with
    | none => none
    | some (name, r3) =>
      let w2 := r3.takeWhile isPySpace
      let r4 := r3.dropWhile isPySpace
      if w2.isEmpty then none else
      let g2rest : Option (List Char × List Char) :=
        match r4 with
        | c :: _ =>
          if c ≠ ':' ∧ c ≠ ';' then
            some (r4.takeWhile (fun d => d != ':' && d != ';'),
                  r4.dropWhile (fun d => d != ':' && d != ';'))
          else if w2.length ≥ 2 then some ([w2.getLastD ' '], r4) else none
        | [] => if w2.length ≥ 2 then some ([w2.getLastD ' '], r4) else none
      match g2rest with
      | none => none
      | some (g2, r5) =>
        let g3 : Option (List Char) :=
          match r5 with
          | ':' :: '=' :: r6 =>
            let w3 := r6.takeWhile isPySpace
            let r7 := r6.dropWhile isPySpace
            match r7 with
            | c :: _ =>
              if c ≠ ';' then some (r7.takeWhile (fun d => d != ';'))
              else if w3.length ≥ 1 then some [w3.getLastD ' '] else none
            | [] => if w3.length ≥ 1 then some [w3.getLastD ' '] else none
          | _ => none
        some (name, g2, g3)

/-- The optional parameter-list group `(?:\(([^)]*)\))?`: matches when a `(`
is present and a `)` follows somewhere after it; otherwise the group is
skipped and the position is unchanged. -/
def parenGroupStar (l : List Char) : Option (List Char) × List Char :=
  match l with
  | '(' :: r =>
    let g := r.takeWhile (fun d => d != ')')
    match r.dropWhile (fun d => d != ')') with
    | ')' :: r3 => (some g, r3)
    | _ => (none, l)
  | _ => (none, l)

/-- The optional group `(?:RETURNS\s*\(([^)]+)\))?` (case-insensitive);
the inner group needs at least one non-`)` character. -/
def returnsGroup (l : List Char) : Option (List Char) :=
  match matchLitCI "RETURNS".data l with
  | none => none
  | some r =>
    let r2 := r.dropWhile isPySpace
    match r2 with
    | '(' :: r3 =>
      let g := r3.takeWhile (fun d => d != ')')
      match r3.dropWhile (fun d => d != ')') with
      | ')' :: _ => if g.isEmpty then none else some g
      | _ => none
    | _ => none

/-- The `_parse_proc` pattern
`([A-Z_][A-Z0-9_]*)\s*:\s*PROC\s*(?:\(([^)]*)\))?\s*(?:RETURNS\s*\(([^)]+)\))?`
with `re.IGNORECASE`.  Returns `(name, params?, returns?)`. -/
def procRegexMatch (l : List Char) :
    Option (String × Option String × Option String) :=
  match ciIdentRun l with
  | none => none
  | some (nm, r1) =>
    match r1.dropWhile isPySpace with
    | ':' :: r3 =>
      let r4 := r3.dropWhile isPySpace
      match matchLitCI "PROC".data r4 with
      | none => none
      | some r5 =>
        let r6 := r5.dropWhile isPySpace
        let (params, r7) := parenGroupStar r6
        let r8 := r7.dropWhile isPySpace
        let rets := returnsGroup r8
        some (String.mk nm, params.map String.mk, rets.map String.mk)
    | _ => none

/-- The `_parse_process` pattern
`([A-Z_][A-Z0-9_]*)\s*:\s*PROCESS\s*(?:\(([^)]*)\))?` with `re.IGNORECASE`. -/
def processRegexMatch (l : List Char) : Option (String × Option String) :=
  match ciIdentRun l with
  | none => none
  | some (nm, r1) =>
    match r1.dropWhile isPySpace with
    | ':' :: r3 =>
      let r4 := r3.dropWhile isPySpace
      match matchLitCI "PROCESS".data r4 with
      | none => none
      | some r5 =>
        let r6 := r5.dropWhile isPySpace
        let (params, _) := parenGroupStar r6
        some (String.mk nm, params.map String.mk)
    | _ => none

/-- The `_parse_module` pattern `MODULE\s+([A-Z_][A-Z0-9_]*)` with
`re.IGNORECASE` (applied by the source to the already-uppercased line). -/
def moduleRegexMatch (l : List Char) : Option String :=
  match matchLitCI "MODULE".data l with
  | none => none
  | some r =>
    let w := r.takeWhile isPySpace
    if w.isEmpty then none else
    match ciIdentRun (r.dropWhile isPySpace) with
    | some (nm, _) => some (String.mk nm)
    | none => none

/-- The `_parse_newmode` pattern
`(?:NEWMODE|SYNMODE)\s+([A-Z_][A-Z0-9_]*)\s*=\s*(.+)` with `re.IGNORECASE`.
For `\s*(.+)` after the `=`: group 2 greedily takes everything when a
non-whitespace remainder exists; when only whitespace remains, the greedy
`\s*` gives back one character so that `.+` is a single whitespace
character; with nothing after `=` there is no match. -/
def newmodeRegexMatch (l : List Char) : Option (String × List Char) :=
  let afterKw :=
    match matchLitCI "NEWMODE".data l with
    | some r => some r
    | none => matchLitCI "SYNMODE".data l
  match afterKw with
  | none => none
  | some r =>
    let w := r.takeWhile isPySpace
    if w.isEmpty then none else
    match ciIdentRun (r.dropWhile isPySpace) with
    | none => none
    | some (nm, r3) =>
      match r3.dropWhile isPySpace with
      | '=' :: r5 =>
        let w2 := r5.takeWhile isPySpace
        match r5.dropWhile isPySpace with
        | [] => if w2.length ≥ 1 then some (String.mk nm, [w2.getLastD ' '])
                else none
        | r6 => some (String.mk nm, r6)
      | _ => none

/-- The `_parse_syn` pattern
`SYN\s+([A-Z_][A-Z0-9_]*)(?:\s+([A-Z_][A-Z0-9_]*))?\s*=\s*([^;]+)\s*;?`
with `re.IGNORECASE`.  The optional mode group can only match when the run
after group 1 is whitespace followed by an identifier-start character, and
in that case the alternative with the group skipped cannot match (the `=`
required next would fall on that identifier character), so no backtracking
between the two alternatives arises.  Returns `(name, mode?, rawValue)`. -/
def synRegexMatch (l : List Char) :
    Option (String × Option String × List Char) :=
  match matchLitCI "SYN".data l with
  | none => none
  | some r =>
    let w := r.takeWhile isPySpace
    if w.isEmpty then none else
    match ciIdentRun (r.dropWhile isPySpace) with
    | none => none
    | some (nm, r3) =>
      let w2 := r3.takeWhile isPySpace
      let r4 := r3.dropWhile isPySpace
      let afterEq : Option (Option String × List Char) :=
        match r4 with
        | d :: rest2 =>
          if w2.length ≥ 1 ∧ isCIIdentStart d then
            let nm2 := d :: rest2.takeWhile isCIIdentChar
            let r5 := rest2.dropWhile isCIIdentChar
            match r5.dropWhile isPySpace with
            | '=' :: r7 => some (some (String.mk nm2), r7)
            | _ => none
          else if d = '=' then some (none, rest2) else none
        | [] => none
      match afterEq with
      | none => none
      | some (g2, r7) =>
        let w3 := r7.takeWhile isPySpace
        match r7.dropWhile isPySpace with
        | d :: _ =>
          if d ≠ ';' then
            some (String.mk nm, g2,
                  (r7.dropWhile isPySpace).takeWhile (fun e => e != ';'))
          else if w3.length ≥ 1 then some (String.mk nm, g2, [w3.getLastD ' '])
          else none
        | [] =>
          if w3.length ≥ 1 then some (String.mk nm, g2, [w3.getLastD ' '])
          else none

/-- The `_parse_signal` pattern
`SIGNAL\s+([A-Z_][A-Z0-9_]*)(?:\s*\(([^)]*)\))?\s*;?` with `re.IGNORECASE`. -/
def signalRegexMatch (l : List Char) : Option (String × Option String) :=
  match matchLitCI "SIGNAL".data l with
  | none => none
  | some r =>
    let w := r.takeWhile isPySpace
    if w.isEmpty then none else
    match ciIdentRun (r.dropWhile isPySpace) with
    | none => none
    | some (nm, r3) =>
      let r4 := r3.dropWhile isPySpace
      let (params, _) := parenGroupStar r4
      some (String.mk nm, params.map String.mk)

/-- The `SET\s*\(([^)]+)\)` pattern of `_parse_newmode` (case-insensitive
prefix match on the mode definition text). -/
def setRegexMatch (l : List Char) : Option (List Char) :=
  match matchLitCI "SET".data l with
  | none => none
  | some r =>
    match r.dropWhile isPySpace with
    | '(' :: r3 =>
      let g := r3.takeWhile (fun d => d != ')')
      match r3.dropWhile (fun d => d != ')') with
      | ')' :: _ => if g.isEmpty then none else some g
      | _ => none
    | _ => none

/-- Digit run to a natural number (`int` on a digit string). -/
def digitsToNat (ds : List Char) : Nat :=
  ds.foldl (fun n c => n * 10 + (c.toNat - 48)) 0

/-- A signed integer `-?\d+` followed by returning the rest. -/
def signedIntRun (l : List Char) : Option (Int × List Char) :=
  let (neg, l1) := match l with
                   | '-' :: r => (true, r)
                   | _ => (false, l)
  let ds := l1.takeWhile Char.isDigit
  if ds.isEmpty then none
  else
    let n : Int := (digitsToNat ds : Int)
    some (if neg then -n else n, l1.dropWhile Char.isDigit)

/-- The `RANGE\s*\(\s*(-?\d+)\s*:\s*(-?\d+)\s*\)` pattern of
`_parse_newmode`. -/
def rangeRegexMatch (l : List Char) : Option (Int × Int) :=
  match matchLitCI "RANGE".data l with
  | none => none
  | some r =>
    match r.dropWhile isPySpace with
    | '(' :: r3 =>
      match signedIntRun (r3.dropWhile isPySpace) with
      | none => none
      | some (lo, r4) =>
        match r4.dropWhile isPySpace with
        | ':' :: r5 =>
          match signedIntRun (r5.dropWhile isPySpace) with
          | none => none
          | some (hi, r6) =>
            match r6.dropWhile isPySpace with
            | ')' :: _ => some (lo, hi)
            | _ => none
        | _ => none
    | _ => none

/-- The `STRUCT\s*\((.+)\)` pattern of `_parse_newmode`: greedy `.+` means
group 1 runs up to the last `)` of the text, and needs at least one
character before that `)`. -/
def structRegexMatch (l : List Char) : Option (List Char) :=
  match matchLitCI "STRUCT".data l with
  | none => none
  | some r =>
    match r.dropWhile isPySpace with
    | '(' :: r3 =>
      match r3.reverse.findIdx? (fun c => c == ')') with
      | none => none
      | some ridx =>
        let j := r3.length - 1 - ridx
        if j ≥ 1 then some (r3.take j) else none
    | _ => none

/-! ## Parameter parsing and `_find_end` -/

/-- Zero-width assertion `\b` to the left of the current position, given the
previous original character (or `none` at the string start). -/
def boundaryBefore : Option Char → Bool
  | none => true
  | some c => !(isWordChar c)

/-- Zero-width assertion `\b` after a match of length `w.length` starting
the given list. -/
def boundaryAfter (w l : List Char) : Bool :=
  match l.drop w.length with
  | [] => true
  | d :: _ => !(isWordChar d)

/-- Scanner for the whole-word removal (re.sub of the word between two
`\b` assertions by the empty replacement, with IGNORECASE) with a
word made of word characters: removes every non-overlapping whole-word
occurrence, scanning left to right over the original text.  `prev` is the
original character just before the current position.  The fuel argument is
the length of the input and only serves termination. -/
def reSubWordAux (w : List Char) : Nat → Option Char → List Char → List Char
  | 0, _, l => l
  | _ + 1, _, [] => []
  | f + 1, prev, l@(c :: rest) =>
    if boundaryBefore prev && ciPrefixOf w l && boundaryAfter w l && !w.isEmpty
    then reSubWordAux w f (some ((l.take w.length).getLastD c)) (l.drop w.length)
    else c :: reSubWordAux w f (some c) rest

/-- The whole-word case-insensitive removal used on the direction
keywords. -/
def reSubWordCI (word : String) (s : String) : String :=
  String.mk (reSubWordAux word.data s.data.length none s.data)

/-- The direction chosen by the `if`/`elif` chain of
`ChillParser._parse_parameters` for one (already stripped) entry: an `in`
substring test on the uppercased entry, `INOUT` first, then `OUT`; the
`IN` arm and the no-match arm both leave the initial direction `IN`. -/
def paramDirection (p : String) : String :=
  let up := upperStr p
  if containsSub up "INOUT" then "INOUT"
  else if containsSub up "OUT" then "OUT"
  else "IN"

/-- The whole-word stripping done by the same `if`/`elif` chain: the
matched direction keyword is removed as a whole word (between two `\b`
assertions, case-insensitively);
when none of the three substrings occurs the entry is unchanged. -/
def paramStripped (p : String) : String :=
  let up := upperStr p
  if containsSub up "INOUT" then reSubWordCI "INOUT" p
  else if containsSub up "OUT" then reSubWordCI "OUT" p
  else if containsSub up "IN" then reSubWordCI "IN" p
  else p

/-- The body of the `for param in params_str.split(',')` loop of
`ChillParser._parse_parameters` for one entry: strip; skip when empty;
compute the direction and strip the direction keyword; then
whitespace-split, keeping `(parts[0], parts[-1], direction)` when at
least two parts remain and the mode `UNKNOWN` for exactly
one. -/
def parseParamEntry (p : String) : Option (String × String × String) :=
  let p := pyStrip p
  if p = "" then none else
  match pySplitWs (stripL (paramStripped p).data) with
  | a :: b :: rest =>
    some (String.mk a, String.mk ((b :: rest).getLast (by simp)),
          paramDirection p)
  | [a] => some (String.mk a, "UNKNOWN", paramDirection p)
  | [] => none

/-- `ChillParser._parse_parameters`. -/
def ChillParser._parse_parameters (params_str : String) :
    List (String × String × String) :=
  ((splitChar ',' params_str.data).map
    (fun e => parseParamEntry (String.mk e))).reduceOption

/-- The loop of `ChillParser._find_end` over the lines after `start_idx`:
`i` is the 0-based index of the head line, `depth` the nesting counter.
Lines matching the nested-construct header pattern or starting with `BEGIN`
increment the depth, lines starting with `END` decrement it, and the
(1-based) `i + 1` is returned when the depth reaches zero. -/
def findEndLoop (construct : String) :
    List String → Nat → Nat → Option Nat
  | [], _, _ => none
  | l :: rest, i, depth =>
    let u := (upperL (stripL l.data))
    if headerMatch u ["PROC", "PROCESS", "MODULE", "REGION"] then
      findEndLoop construct rest (i + 1) (depth + 1)
    else if "BEGIN".data.isPrefixOf u then
      findEndLoop construct rest (i + 1) (depth + 1)
    else if "END".data.isPrefixOf u then
      if depth - 1 = 0 then some (i + 1)
      else findEndLoop construct rest (i + 1) (depth - 1)
    else findEndLoop construct rest (i + 1) depth

/-- `ChillParser._find_end`, with the fallback `start_idx + 1` when the
loop runs off the end of the input. -/
def ChillParser._find_end (lines : List String) (start_idx : Nat)
    (construct : String) : Nat :=
  (findEndLoop construct (lines.drop (start_idx + 1)) (start_idx + 1) 1).getD
    (start_idx + 1)

/-! ## The line parsers -/

/-- `ChillParser._parse_module` (the source passes it the stripped,
uppercased line). -/
def ChillParser._parse_module (m : ChillSemanticModel) (line : String)
    (line_num : Nat) : ChillSemanticModel :=
  match moduleRegexMatch line.data with
  | none => m
  | some name =>
    let is_spec := containsSub (upperStr line) "SPEC"
    let module : ModuleDefinition :=
      { name, is_spec, line_start := line_num }
    let m := m.add_module module
    let m := { m with module_name := some name }
    m.push_scope name

/-- `ChillParser._parse_struct_fields`, folding the comma-separated field
texts into the `fields` dict of the mode; `none` embeds the (unreachable
for its callers) `IndexError` of `_mode_str_to_enum` on a blank mode
string. -/
def ChillParser._parse_struct_fields :
    NewmodeDefinition → List String → Option NewmodeDefinition
  | md, [] => some md
  | md, f :: fs =>
    let f := pyStrip f
    match pySplitWs f.data with
    | a :: b :: rest =>
      let fname := String.mk a
      let fmode := String.mk ((b :: rest).getLast (by simp))
      match ChillParser._mode_str_to_enum fmode with
      | none => none
      | some cm =>
        ChillParser._parse_struct_fields
          { md with fields := alInsert fname { name := fname, mode := cm } md.fields } fs
    | _ => ChillParser._parse_struct_fields md fs

/-- `ChillParser._parse_newmode`: header regex, then `rstrip(';').strip()`
on the definition text, then the `SET`/`RANGE`/`STRUCT` sub-matches. -/
def ChillParser._parse_newmode (m : ChillSemanticModel) (line : String)
    (line_num : Nat) : Option ChillSemanticModel :=
  match newmodeRegexMatch line.data with
  | none => some m
  | some (name, g2) =>
    let mode_def := String.mk (stripL ((g2.reverse.dropWhile (fun c => c == ';')).reverse))
    match ChillParser._infer_base_mode mode_def with
    | none => none
    | some bm =>
      let mode0 : NewmodeDefinition :=
        { name, base_mode := bm, line_number := line_num }
      let mode1 :=
        match setRegexMatch mode_def.data with
        | some inner =>
          { mode0 with enum_values :=
              (splitChar ',' inner).map (fun v => pyStrip (String.mk v)) }
        | none => mode0
      let mode2 :=
        match rangeRegexMatch mode_def.data with
        | some (lo, hi) => { mode1 with range_low := some lo, range_high := some hi }
        | none => mode1
      let mode3 :=
        match structRegexMatch mode_def.data with
        | some fieldsStr =>
          ChillParser._parse_struct_fields mode2
            ((splitChar ',' fieldsStr).map String.mk)
        | none => some mode2
      match mode3 with
      | none => none
      | some md => some (m.add_mode md)

/-- `ChillParser._parse_dcl`.  The `none` result embeds the `IndexError`
raised by `_is_builtin_mode` when the matched mode text strips to the empty
string. -/
def ChillParser._parse_dcl (m : ChillSemanticModel) (line : String)
    (line_num : Nat) : Option ChillSemanticModel :=
  match dclRegexMatch line.data with
  | none => some m
  | some (nameL, g2, g3) =>
    let name := String.mk nameL
    let mode_str := pyStrip (String.mk g2)
    let init_value := g3.map (fun v => pyStrip (String.mk v))
    match ChillParser._mode_str_to_enum mode_str with
    | none => none
    | some cm =>
      match ChillParser._is_builtin_mode mode_str with
      | none => none
      | some bi =>
        let dcl : DclDefinition :=
          { name, mode := cm,
            mode_name := if bi then none else some mode_str,
            initial_value := init_value,
            is_static := containsSub (upperStr mode_str) "STATIC",
            line_number := line_num,
            column_start := pyFind (upperStr line) (upperStr name),
            column_end := pyFind (upperStr line) (upperStr name)
                          + (name.data.length : Int) }
        some (m.add_dcl dcl)

/-- `ChillParser._parse_syn`. -/
def ChillParser._parse_syn (m : ChillSemanticModel) (line : String)
    (line_num : Nat) : ChillSemanticModel :=
  match synRegexMatch line.data with
  | none => m
  | some (name, mode, rawValue) =>
    m.add_synonym
      { name, mode, value := pyStrip (String.mk rawValue),
        line_number := line_num }

/-- `ChillParser._parse_proc`. -/
def ChillParser._parse_proc (m : ChillSemanticModel) (line : String)
    (line_num : Nat) (all_lines : List String) (start_idx : Nat) :
    ChillSemanticModel :=
  match procRegexMatch line.data with
  | none => m
  | some (name, params_str, returns) =>
    let proc : ProcDefinition :=
      { name,
        returns_mode := returns.map pyStrip,
        is_general := containsSub (upperStr line) "GENERAL",
        line_start := line_num,
        parameters :=
          match params_str with
          | some ps => if ps ≠ "" then ChillParser._parse_parameters ps else []
          | none => [],
        line_end := ChillParser._find_end all_lines start_idx "PROC" }
    m.add_proc proc

/-- `ChillParser._parse_process` (unreachable from `_parse_declarations`,
because the `PROC` dispatch pattern also matches every `PROCESS` header;
embedded nonetheless). -/
def ChillParser._parse_process (m : ChillSemanticModel) (line : String)
    (line_num : Nat) (all_lines : List String) (start_idx : Nat) :
    ChillSemanticModel :=
  match processRegexMatch line.data with
  | none => m
  | some (name, params_str) =>
    let process : ProcessDefinition :=
      { name,
        line_start := line_num,
        parameters :=
          match params_str with
          | some ps => if ps ≠ "" then ChillParser._parse_parameters ps else []
          | none => [],
        line_end := ChillParser._find_end all_lines start_idx "PROCESS" }
    m.add_process process

/-- `ChillParser._parse_signal`. -/
def ChillParser._parse_signal (m : ChillSemanticModel) (line : String)
    (line_num : Nat) : ChillSemanticModel :=
  match signalRegexMatch line.data with
  | none => m
  | some (name, params_str) =>
    let params : List (String × String) :=
      match params_str with
      | some ps =>
        if ps ≠ "" then
          ((splitChar ',' ps.data).map (fun param =>
            match pySplitWs (stripL param) with
            | a :: b :: rest => some (String.mk a, String.mk ((b :: rest).getLast (by simp)))
            | _ => none)).reduceOption
        else []
      | none => []
    m.add_signal { name, parameters := params, line_number := line_num }

/-- One iteration of the `_parse_declarations` dispatch: classify the line
by its stripped uppercased text and run the matching `_parse_*`.  `none`
propagates an escaping exception. -/
def parseDeclLine (m : ChillSemanticModel) (all_lines : List String)
    (i : Nat) (line : String) : Option ChillSemanticModel :=
  let line_num := i + 1
  let stripped := upperStr (pyStrip line)
  if strStartsWith stripped "MODULE" then
    some (ChillParser._parse_module m stripped line_num)
  else if strStartsWith stripped "NEWMODE" || strStartsWith stripped "SYNMODE" then
    ChillParser._parse_newmode m (pyStrip line) line_num
  else if strStartsWith stripped "DCL" then
    ChillParser._parse_dcl m (pyStrip line) line_num
  else if strStartsWith stripped "SYN" then
    some (ChillParser._parse_syn m (pyStrip line) line_num)
  else if headerMatch stripped.data ["PROC"] then
    some (ChillParser._parse_proc m (pyStrip line) line_num all_lines i)
  else if headerMatch stripped.data ["PROCESS"] then
    some (ChillParser._parse_process m (pyStrip line) line_num all_lines i)
  else if strStartsWith stripped "SIGNAL" then
    some (ChillParser._parse_signal m (pyStrip line) line_num)
  else some m

/-- The `enumerate` loop of `_parse_declarations`.  On an escaping
exception the partially built model (all additions from fully processed
earlier lines) is returned on the `error` side, since the Python model is
mutated in place and every raise point precedes the `add_*` call of its
line. -/
def parseDeclLoop (all_lines : List String) :
    List String → Nat → ChillSemanticModel →
    Except ChillSemanticModel ChillSemanticModel
  | [], _, m => .ok m
  | line :: rest, i, m =>
    match parseDeclLine m all_lines i line with
    | none => .error m
    | some m2 => parseDeclLoop all_lines rest (i + 1) m2

/-- `ChillParser._parse_declarations` on the cleaned source text. -/
def ChillParser._parse_declarations (source : String) :
    Except ChillSemanticModel ChillSemanticModel :=
  let lines := (splitChar '\n' source.data).map String.mk
  parseDeclLoop lines lines 0 {}

/-- The `ChillParser` instance state (`__init__`). -/
structure ChillParser where
  model : ChillSemanticModel := {}
  lines : List String := []
  current_line : Nat := 0
deriving DecidableEq, Repr

/-- `ChillParser.parse`: reset the instance state, preprocess, parse
declarations, and return the semantic model.  The first component is the
returned model (`none` for an escaping exception); the second is the
instance state afterwards (on an exception, `self.model` holds the
partially built model). -/
def ChillParser.parse (p : ChillParser) (source : String) :
    Option ChillSemanticModel × ChillParser :=
  let _ := p
  let ls := (splitChar '\n' source.data).map String.mk
  match ChillParser._parse_declarations (ChillParser._preprocess source) with
  | .ok m => (some m, { model := m, lines := ls, current_line := 0 })
  | .error pm => (none, { model := pm, lines := ls, current_line := 0 })

/-- Parsing a source text with a fresh parser, as the LSP server does. -/
def parseChill (source : String) : Option ChillSemanticModel :=
  (ChillParser.parse {} source).1

/-! ## Query layer: completions and hover -/

/-- The backward prefix extraction of `get_completions_at_position`: walk
from `column - 1` downwards collecting word characters, stopping at the
first index that is out of range or not a word character (so a column past
the end of the line yields the empty prefix). -/
def prefixAtColumn (line : List Char) : Nat → List Char
  | 0 => []
  | n + 1 =>
    if n < line.length ∧ isWordChar (line.getD n ' ') then
      prefixAtColumn line n ++ [line.getD n ' ']
    else []

/-- `get_completions_at_position`: pairs `(name, kind)` collected from the
reserved words, predefined names, undotted `dcls` keys, `modes`, `procs`
and `synonyms`, filtered by uppercased-prefix matching. -/
def get_completions_at_position (m : ChillSemanticModel) (line : String)
    (column : Nat) : List (String × String) :=
  let pfxU := String.mk (upperL (prefixAtColumn line.data column))
  ((CHILL_RESERVED_WORDS.filter (fun kw => strStartsWith kw pfxU)).map
      (fun kw => (kw, "keyword")))
  ++ ((CHILL_PREDEFINED.filter (fun p => strStartsWith p pfxU)).map
      (fun p => (p, "builtin")))
  ++ ((m.dcls.filter (fun e =>
        !(e.1.data.contains '.') && strStartsWith (upperStr e.1) pfxU)).map
      (fun e => (e.1, "DCL " ++ e.2.mode.value)))
  ++ ((m.modes.filter (fun e => strStartsWith (upperStr e.1) pfxU)).map
      (fun e => (e.1, "mode")))
  ++ ((m.procs.filter (fun e => strStartsWith (upperStr e.1) pfxU)).map
      (fun e => (e.1, "procedure")))
  ++ ((m.synonyms.filter (fun e => strStartsWith (upperStr e.1) pfxU)).map
      (fun e => (e.1, "constant")))

/-- The hover text built by `get_hover_info` for a reserved word. -/
def reservedHoverText (word : String) : String :=
  "**" ++ word ++ "** - CHILL reserved word"

/-- The hover text built by `get_hover_info` for a predefined name. -/
def predefinedHoverText (word : String) : String :=
  "**" ++ word ++ "** - CHILL predefined name"

/-- The hover text built by `get_hover_info` for a declaration (mode value,
optional user mode name, optional truthy initialiser). -/
def dclHoverText (word : String) (dcl : DclDefinition) : String :=
  let info := "**" ++ word ++ "** - DCL " ++ dcl.mode.value
  let info := match dcl.mode_name with
              | some mn => info ++ " (" ++ mn ++ ")"
              | none => info
  match dcl.initial_value with
  | some iv => if iv ≠ "" then info ++ "\n\nInitial value: " ++ iv else info
  | none => info

/-- The hover text built by `get_hover_info` for a mode (category, then
enumerators, range bounds and field names when present). -/
def modeHoverText (word : String) (mode : NewmodeDefinition) : String :=
  let info := "**" ++ word ++ "** - NEWMODE " ++ mode.base_mode.value
  let info := if mode.enum_values ≠ [] then
                info ++ "\n\nValues: " ++ String.intercalate ", " mode.enum_values
              else info
  let info := match mode.range_low with
              | some lo =>
                info ++ "\n\nRange: " ++ toString lo ++ ":" ++
                  (match mode.range_high with
                   | some hi => toString hi
                   | none => "None")
              | none => info
  if mode.fields ≠ [] then
    info ++ "\n\nFields: " ++ String.intercalate ", " (mode.fields.map Prod.fst)
  else info

/-- The hover text built by `get_hover_info` for a procedure (rendered
parameter list `name direction mode`, optional returns mode). -/
def procHoverText (word : String) (proc : ProcDefinition) : String :=
  let params := String.intercalate ", "
    (proc.parameters.map (fun p => p.1 ++ " " ++ p.2.2 ++ " " ++ p.2.1))
  let info := "**" ++ word ++ "** - PROC(" ++ params ++ ")"
  match proc.returns_mode with
  | some r => info ++ " RETURNS(" ++ r ++ ")"
  | none => info

/-- The hover text built by `get_hover_info` for a synonym. -/
def synHoverText (word : String) (syn : SynDefinition) : String :=
  "**" ++ word ++ "** - SYN = " ++ syn.value

/-- `get_hover_info`: reserved word, then predefined name, then
declaration, mode, procedure, synonym; `none` when nothing matches. -/
def get_hover_info (m : ChillSemanticModel) (word : String) : Option String :=
  let word_upper := upperStr word
  if CHILL_RESERVED_WORDS.contains word_upper then
    some (reservedHoverText word)
  else if CHILL_PREDEFINED.contains word_upper then
    some (predefinedHoverText word)
  else match m.get_dcl word with
  | some dcl => some (dclHoverText word dcl)
  | none => match m.get_mode word with
    | some mode => some (modeHoverText word mode)
    | none => match m.get_proc word with
      | some proc => some (procHoverText word proc)
      | none => match alLookup word m.synonyms with
        | some syn => some (synHoverText word syn)
        | none => none

/-! ## References (`ChillLSPServer._handle_references`) -/

/-- One position of the compiled pattern `\b` + `re.escape(word)` + `\b`
with `re.IGNORECASE`: the word matches at `j` case-insensitively and both
ends fall on word boundaries of the line. -/
def refMatchAt (line word : List Char) (j : Nat) : Bool :=
  ciPrefixOf word (line.drop j)
  && (j == 0 || !(isWordChar (line.getD (j - 1) ' ')))
  && (j + word.length == line.length
      || !(isWordChar (line.getD (j + word.length) ' ')))

/-- The `pattern.finditer(line)` scan: positions are tried left to right
and scanning resumes after the end of each match.  Fuel is
`line.length + 1` at the top call and only serves termination. -/
def refScanAux (line word : List Char) : Nat → Nat → List (Nat × Nat)
  | 0, _ => []
  | f + 1, j =>
    if line.length < j + word.length then []
    else if refMatchAt line word j then
      (j, j + word.length) :: refScanAux line word f (j + word.length)
    else refScanAux line word f (j + 1)

/-- All `(match.start(), match.end())` spans of the whole-word
case-insensitive pattern on one line. -/
def findRefsLine (word line : List Char) : List (Nat × Nat) :=
  refScanAux line word (line.length + 1) 0

/-- Pairs each element with its 0-based index starting at `k`
(the `enumerate` of the references loop). -/
def withIndices (k : Nat) : List α → List (Nat × α)
  | [] => []
  | a :: rest => (k, a) :: withIndices (k + 1) rest

/-- The reference-collection core of `ChillLSPServer._handle_references`:
the empty-word early return, then for every 0-based line index `i` and
every span `(s, e)` of the whole-word case-insensitive pattern in that
line, one `(i, s, e)` triple (the LSP locations built from exactly these
numbers). -/
def referencesInText (text word : String) : List (Nat × Nat × Nat) :=
  if word = "" then []
  else
    ((withIndices 0 (splitChar '\n' text.data)).map (fun il =>
        (findRefsLine word.data il.2).map (fun se => (il.1, se.1, se.2)))).flatten

/-- Modelled on the wording of the spec for C6: `word` occurs at offset `j`
of `line` when the characters of `line` from `j` on spell `word` up to
case, and the characters adjacent to the occurrence (when they exist) are
not word characters.  This is the declarative side against which the
scanner is proved. -/
def wholeWordOccurSpec (line word : List Char) (j : Nat) : Bool :=
  decide (j + word.length ≤ line.length)
  && ((upperL ((line.drop j).take word.length)) == upperL word)
  && (j == 0 || !(isWordChar (line.getD (j - 1) ' ')))
  && (j + word.length == line.length
      || !(isWordChar (line.getD (j + word.length) ' ')))

/-- Whether `w` occurs somewhere in `s` as a whole word ignoring case (the
notion of a direction keyword being present in a parameter entry). -/
def hasWordCI (s w : String) : Bool :=
  (List.range (s.data.length + 1)).any
    (fun j => wholeWordOccurSpec s.data w.data j)

/-! ## Concrete material used by the theorems below -/

/-- A three-line document whose first two lines are spanned by one block
comment. -/
def blockCommentDoc : String := "/*a\nb*/\nDCL x INT;"

/-- A declaration line whose mode text matches as a single space (the
regex group `[^:;]+` takes the second blank before `:=`), so it strips to
the empty string. -/
def emptyModeDcl : String := "DCL x  := 5;"

/-- Two declarations of `x`: one global, one inside the body of procedure
`p`. -/
def twoScopesDoc : String := "DCL x INT;\np: PROC();\nDCL x BOOL;\nEND p;"

/-- A module followed by a declaration, for the scoped-key behaviour. -/
def moduleScopeDoc : String := "MODULE m;\nDCL x INT;"

/-- The procedure scenario of the spec: a `PROC` header with one parameter
and a returns mode, a body, and the matching `END`. -/
def handlerDoc : String :=
  "handler: PROC(input INT) RETURNS(INT);\n  DCL result INT;\n  result := input * 2;\n  RETURN result;\nEND handler;"

/-- A semantic model with one entity of each user-defined kind, used to
exercise the query layer at concrete inputs. -/
def demoModel : ChillSemanticModel :=
  { dcls := [("count", { name := "count", mode := .INT, line_number := 2 })],
    modes := [("counter", { name := "counter", base_mode := .RANGE,
                            line_number := 1 })],
    procs := [("handler", { name := "handler",
                            parameters := [("input", "INT", "IN")],
                            returns_mode := some "INT",
                            line_start := 5, line_end := 7 })],
    synonyms := [("max_size", { name := "max_size", value := "100",
                                line_number := 3 })],
    processes := [("worker", { name := "worker", line_start := 10,
                               line_end := 12 })],
    signals := [("alarm", { name := "alarm", line_number := 4 })] }

/-! ## Helper lemmas -/

set_option maxRecDepth 4096 in
theorem upper_closed_reserved :
    ∀ kw ∈ CHILL_RESERVED_WORDS, upperStr kw = kw := by decide

set_option maxRecDepth 4096 in
theorem upper_closed_predefined :
    ∀ p ∈ CHILL_PREDEFINED, upperStr p = p := by decide

theorem alLookup_eq_none {α : Type} (k : String) (l : List (String × α)) :
    alLookup k l = none ↔ ∀ v, (k, v) ∉ l := by
  induction l with
  | nil => simp [alLookup]
  | cons e rest ih =>
    obtain ⟨k1, v1⟩ := e
    by_cases h : k1 = k
    · subst h
      constructor
      · intro hc
        simp [alLookup] at hc
      · intro hall
        exact absurd (List.mem_cons_self _ _) (hall v1)
    · simp only [alLookup, beq_iff_eq, h, if_false, ih, List.mem_cons]
      constructor
      · intro hall v hv
        rcases hv with hv | hv
        · exact h (by injection hv with h1 h2; exact h1.symm)
        · exact hall v hv
      · intro hall v hv
        exact hall v (Or.inr hv)

theorem alLookup_some_mem {α : Type} {k : String} {l : List (String × α)}
    {v : α} (h : alLookup k l = some v) : (k, v) ∈ l := by
  induction l with
  | nil => simp [alLookup] at h
  | cons e rest ih =>
    obtain ⟨k1, v1⟩ := e
    by_cases hk : k1 = k
    · subst hk
      simp [alLookup] at h
      subst h
      exact List.mem_cons_self _ _
    · simp only [alLookup, beq_iff_eq, hk, if_false] at h
      exact List.mem_cons_of_mem _ (ih h)

theorem mem_insertByLine (x y : String × String × Nat × Nat)
    (l : List (String × String × Nat × Nat)) :
    x ∈ insertByLine y l ↔ x = y ∨ x ∈ l := by
  induction l with
  | nil => simp [insertByLine]
  | cons z rest ih =>
    by_cases h : z.2.2.1 ≤ y.2.2.1
    · simp only [insertByLine, h, if_true, List.mem_cons, ih]
      tauto
    · simp only [insertByLine, h, if_false, List.mem_cons]

theorem mem_sortByLine_aux (x : String × String × Nat × Nat) :
    ∀ (l acc : List (String × String × Nat × Nat)),
      x ∈ l.foldl (fun a y => insertByLine y a) acc ↔ x ∈ acc ∨ x ∈ l := by
  intro l
  induction l with
  | nil => simp
  | cons z rest ih =>
    intro acc
    simp only [List.foldl_cons, ih, mem_insertByLine, List.mem_cons]
    tauto

theorem mem_sortByLine (x : String × String × Nat × Nat)
    (l : List (String × String × Nat × Nat)) :
    x ∈ sortByLine l ↔ x ∈ l := by
  unfold sortByLine
  rw [mem_sortByLine_aux]
  simp

theorem toUpper_toNat (c : Char) (h : 97 ≤ c.toNat ∧ c.toNat ≤ 122) :
    (Char.toUpper c).toNat = c.toNat - 32 := by
  have hv : (c.toNat - 32).isValidChar := Or.inl (by omega)
  unfold Char.toUpper
  simp only [ge_iff_le, h.1, h.2, and_self, if_true]
  rw [Char.ofNat, dif_pos hv]
  rfl

theorem toUpper_eq_self (c : Char) (h : ¬ (97 ≤ c.toNat ∧ c.toNat ≤ 122)) :
    Char.toUpper c = c := by
  unfold Char.toUpper
  simp only [ge_iff_le]
  rw [if_neg]
  omega

theorem isWordChar_toUpper (c : Char) : isWordChar c.toUpper = isWordChar c := by
  by_cases h : 97 ≤ c.toNat ∧ c.toNat ≤ 122
  · have ht := toUpper_toNat c h
    simp only [isWordChar, ht, decide_eq_decide]
    omega
  · rw [toUpper_eq_self c h]

theorem ciPrefixOf_iff (w : List Char) :
    ∀ l : List Char,
      ciPrefixOf w l = true ↔ w.length ≤ l.length ∧ upperL (l.take w.length) = upperL w := by
  induction w with
  | nil => intro l; simp [ciPrefixOf, upperL]
  | cons p ps ih =>
    intro l
    cases l with
    | nil => simp [ciPrefixOf]
    | cons c cs =>
      simp only [ciPrefixOf, Bool.and_eq_true, beq_iff_eq, ih, List.length_cons,
        List.take_succ_cons, upperL, List.map_cons, List.cons.injEq]
      constructor
      · rintro ⟨h1, h2, h3⟩
        exact ⟨by omega, h1.symm, h3⟩
      · rintro ⟨h1, h2, h3⟩
        exact ⟨h2.symm, by omega, h3⟩

theorem getD_eq_getElem_of_lt {α : Type} (l : List α) (n : Nat) (d : α)
    (h : n < l.length) : l.getD n d = l[n] := by
  simp [List.getD_eq_getElem?_getD, List.getElem?_eq_getElem h]

theorem occur_word_char (ln word : List Char) (j k : Nat)
    (hocc : wholeWordOccurSpec ln word j = true)
    (hwc : ∀ c ∈ word, isWordChar c = true)
    (hk : k < word.length) :
    isWordChar (ln.getD (j + k) ' ') = true := by
  simp only [wholeWordOccurSpec, Bool.and_eq_true, decide_eq_true_eq,
    beq_iff_eq] at hocc
  obtain ⟨⟨⟨hlen, heq⟩, _⟩, _⟩ := hocc
  have hjk : j + k < ln.length := by omega
  have hslice : ((ln.drop j).take word.length).length = word.length := by
    simp [List.length_take, List.length_drop]
    omega
  have hks : k < ((ln.drop j).take word.length).length := by omega
  have hku : k < (upperL ((ln.drop j).take word.length)).length := by
    simpa [upperL, List.length_map] using hks
  have hkw : k < (upperL word).length := by
    simpa [upperL, List.length_map] using hk
  have hmap : (upperL ((ln.drop j).take word.length))[k] = (upperL word)[k] := by
    congr 1
  have hchar : Char.toUpper (((ln.drop j).take word.length)[k]) =
      Char.toUpper (word[k]) := by
    simpa [upperL, List.getElem_map] using hmap
  have hidx : ((ln.drop j).take word.length)[k] = ln[j + k] := by
    rw [List.getElem_take, List.getElem_drop]
  rw [hidx] at hchar
  have hw1 : isWordChar (word[k]) = true :=
    hwc _ (List.getElem_mem hk)
  have h1 := isWordChar_toUpper (ln[j + k])
  have h2 := isWordChar_toUpper (word[k])
  rw [getD_eq_getElem_of_lt ln (j + k) ' ' hjk]
  rw [← h1, hchar, h2]
  exact hw1

theorem occur_no_overlap (ln word : List Char) (hw : word ≠ [])
    (hwc : ∀ c ∈ word, isWordChar c = true) {j j' : Nat}
    (h1 : wholeWordOccurSpec ln word j = true)
    (h2 : wholeWordOccurSpec ln word j' = true) (hlt : j < j') :
    j + word.length ≤ j' := by
  by_contra hcon
  push_neg at hcon
  have hk : j' - 1 - j < word.length := by omega
  have hchar := occur_word_char ln word j (j' - 1 - j) h1 hwc hk
  have hidx : j + (j' - 1 - j) = j' - 1 := by omega
  rw [hidx] at hchar
  simp only [wholeWordOccurSpec, Bool.and_eq_true, Bool.or_eq_true,
    beq_iff_eq, Bool.not_eq_true'] at h2
  obtain ⟨⟨_, hb⟩, _⟩ := h2
  rcases hb with hb | hb
  · omega
  · rw [hb] at hchar
    exact Bool.false_ne_true hchar

theorem refMatchAt_eq_spec (ln word : List Char) (hw : word ≠ [])
    (j : Nat) : refMatchAt ln word j = wholeWordOccurSpec ln word j := by
  rw [Bool.eq_iff_iff]
  have hlen1 : 1 ≤ word.length := by
    cases word with
    | nil => exact absurd rfl hw
    | cons a l => simp
  simp only [refMatchAt, wholeWordOccurSpec, Bool.and_eq_true,
    decide_eq_true_eq, beq_iff_eq, ciPrefixOf_iff, List.length_drop]
  constructor
  · rintro ⟨⟨⟨hle, heq⟩, hb1⟩, hb2⟩
    exact ⟨⟨⟨by omega, heq⟩, hb1⟩, hb2⟩
  · rintro ⟨⟨⟨hle, heq⟩, hb1⟩, hb2⟩
    exact ⟨⟨⟨by omega, heq⟩, hb1⟩, hb2⟩

theorem refScanAux_lb (ln word : List Char) :
    ∀ (fuel j0 : Nat) (x : Nat × Nat),
      x ∈ refScanAux ln word fuel j0 → j0 ≤ x.1 := by
  intro fuel
  induction fuel with
  | zero => intro j0 x hx; simp [refScanAux] at hx
  | succ f ih =>
    intro j0 x hx
    simp only [refScanAux] at hx
    split at hx
    · simp at hx
    · split at hx
      · rcases List.mem_cons.mp hx with hx | hx
        · subst hx; exact le_refl _
        · have := ih (j0 + word.length) x hx
          omega
      · have := ih (j0 + 1) x hx
        omega

theorem refScanAux_mem (ln word : List Char) (hw : word ≠ [])
    (hwc : ∀ c ∈ word, isWordChar c = true) :
    ∀ (fuel j0 : Nat), ln.length + 1 ≤ fuel + j0 →
      ∀ s e, ((s, e) ∈ refScanAux ln word fuel j0 ↔
        j0 ≤ s ∧ wholeWordOccurSpec ln word s = true ∧
          e = s + word.length) := by
  have hlen1 : 1 ≤ word.length := by
    cases word with
    | nil => exact absurd rfl hw
    | cons a l => simp
  intro fuel
  induction fuel with
  | zero =>
    intro j0 hfuel s e
    simp only [refScanAux, List.not_mem_nil, false_iff]
    rintro ⟨hs, hocc, he⟩
    simp only [wholeWordOccurSpec, Bool.and_eq_true, decide_eq_true_eq] at hocc
    obtain ⟨⟨⟨hle, _⟩, _⟩, _⟩ := hocc
    omega
  | succ f ih =>
    intro j0 hfuel s e
    simp only [refScanAux]
    split
    · next hcut =>
      simp only [List.not_mem_nil, false_iff]
      rintro ⟨hs, hocc, he⟩
      simp only [wholeWordOccurSpec, Bool.and_eq_true, decide_eq_true_eq] at hocc
      obtain ⟨⟨⟨hle, _⟩, _⟩, _⟩ := hocc
      omega
    · next hcut =>
      push_neg at hcut
      split
      · next hmatch =>
        rw [refMatchAt_eq_spec ln word hw] at hmatch
        rw [List.mem_cons,
          ih (j0 + word.length) (by omega) s e]
        constructor
        · rintro (hx | ⟨hs, hocc, he⟩)
          · injection hx with hx1 hx2
            subst hx1; subst hx2
            exact ⟨le_refl _, hmatch, rfl⟩
          · exact ⟨by omega, hocc, he⟩
        · rintro ⟨hs, hocc, he⟩
          rcases Nat.eq_or_lt_of_le hs with hs1 | hs1
          · left; rw [← hs1, he, ← hs1]
          · right
            exact ⟨occur_no_overlap ln word hw hwc hmatch hocc hs1, hocc, he⟩
      · next hmatch =>
        rw [refMatchAt_eq_spec ln word hw] at hmatch
        rw [ih (j0 + 1) (by omega) s e]
        constructor
        · rintro ⟨hs, hocc, he⟩
          exact ⟨by omega, hocc, he⟩
        · rintro ⟨hs, hocc, he⟩
          refine ⟨?_, hocc, he⟩
          rcases Nat.eq_or_lt_of_le hs with hs1 | hs1
          · rw [← hs1] at hocc
            rw [hocc] at hmatch
            exact absurd rfl hmatch
          · omega

theorem refScanAux_nodup (ln word : List Char) (hw : word ≠ []) :
    ∀ (fuel j0 : Nat), (refScanAux ln word fuel j0).Nodup := by
  have hlen1 : 1 ≤ word.length := by
    cases word with
    | nil => exact absurd rfl hw
    | cons a l => simp
  intro fuel
  induction fuel with
  | zero => intro j0; simp [refScanAux]
  | succ f ih =>
    intro j0
    simp only [refScanAux]
    split
    · simp
    · split
      · refine List.Nodup.cons ?_ (ih (j0 + word.length))
        intro hmem
        have h2 : j0 + word.length ≤ j0 :=
          refScanAux_lb ln word f (j0 + word.length) _ hmem
        omega
      · exact ih (j0 + 1)

theorem findRefsLine_mem (word ln : List Char) (hw : word ≠ [])
    (hwc : ∀ c ∈ word, isWordChar c = true) (s e : Nat) :
    (s, e) ∈ findRefsLine word ln ↔
      wholeWordOccurSpec ln word s = true ∧ e = s + word.length := by
  unfold findRefsLine
  rw [refScanAux_mem ln word hw hwc (ln.length + 1) 0 (by omega) s e]
  simp

theorem withIndices_mem {α : Type} (x : Nat × α) :
    ∀ (l : List α) (k : Nat),
      x ∈ withIndices k l ↔ k ≤ x.1 ∧ l[x.1 - k]? = some x.2 := by
  intro l
  induction l with
  | nil => intro k; simp [withIndices]
  | cons a rest ih =>
    intro k
    simp only [withIndices, List.mem_cons, ih]
    constructor
    · rintro (hx | ⟨hk, hget⟩)
      · subst hx
        simp
      · have hd : x.1 - k = (x.1 - (k + 1)) + 1 := by omega
        rw [hd]
        exact ⟨by omega, by rw [List.getElem?_cons_succ]; exact hget⟩
    · rintro ⟨hk, hget⟩
      rcases Nat.eq_or_lt_of_le hk with hk1 | hk1
      · left
        rw [← hk1] at hget
        simp at hget
        obtain ⟨x1, x2⟩ := x
        simp only at hget hk1
        rw [← hk1, hget]
      · right
        have hd : x.1 - k = (x.1 - (k + 1)) + 1 := by omega
        rw [hd, List.getElem?_cons_succ] at hget
        exact ⟨by omega, hget⟩

theorem data_ne_nil_of_ne_empty {w : String} (h : w ≠ "") : w.data ≠ [] := by
  intro hd
  apply h
  cases w with
  | mk d =>
    have hd2 : d = [] := hd
    rw [hd2]

theorem referencesInText_mem (text word : String) (hw : word ≠ "")
    (hwc : ∀ c ∈ word.data, isWordChar c = true) (i s e : Nat) :
    (i, s, e) ∈ referencesInText text word ↔
      ∃ l, (splitChar '\n' text.data)[i]? = some l ∧
        wholeWordOccurSpec l word.data s = true ∧
        e = s + word.data.length := by
  have hwd : word.data ≠ [] := data_ne_nil_of_ne_empty hw
  unfold referencesInText
  rw [if_neg hw]
  rw [List.mem_flatten]
  constructor
  · rintro ⟨sub, hsub, hmem⟩
    rw [List.mem_map] at hsub
    obtain ⟨il, hil, rfl⟩ := hsub
    rw [List.mem_map] at hmem
    obtain ⟨se, hse, hsee⟩ := hmem
    injection hsee with h1 h23
    injection h23 with h2 h3
    subst h1; subst h2; subst h3
    rw [withIndices_mem] at hil
    obtain ⟨_, hget⟩ := hil
    simp only [Nat.sub_zero] at hget
    refine ⟨il.2, hget, ?_⟩
    have := (findRefsLine_mem word.data il.2 hwd hwc se.1 se.2).mp hse
    exact this
  · rintro ⟨l, hget, hocc, he⟩
    refine ⟨(findRefsLine word.data l).map (fun se => (i, se.1, se.2)), ?_, ?_⟩
    · rw [List.mem_map]
      refine ⟨(i, l), ?_, rfl⟩
      rw [withIndices_mem]
      simpa using hget
    · rw [List.mem_map]
      exact ⟨(s, e), (findRefsLine_mem word.data l hwd hwc s e).mpr ⟨hocc, he⟩,
        rfl⟩

theorem tagged_flatten_lb (word : String) :
    ∀ (ls : List (List Char)) (k : Nat) (x : Nat × Nat × Nat),
      x ∈ (((withIndices k ls).map (fun il =>
        (findRefsLine word.data il.2).map (fun se => (il.1, se.1, se.2)))).flatten) →
      k ≤ x.1 := by
  intro ls
  induction ls with
  | nil => intro k x hx; simp [withIndices] at hx
  | cons l rest ih =>
    intro k x hx
    simp only [withIndices, List.map_cons, List.flatten_cons,
      List.mem_append] at hx
    rcases hx with hx | hx
    · rw [List.mem_map] at hx
      obtain ⟨se, _, rfl⟩ := hx
      exact le_refl _
    · have := ih (k + 1) x hx
      omega

theorem referencesInText_nodup (text word : String) (hw : word ≠ "") :
    (referencesInText text word).Nodup := by
  have hwd : word.data ≠ [] := data_ne_nil_of_ne_empty hw
  unfold referencesInText
  rw [if_neg hw]
  suffices h : ∀ (ls : List (List Char)) (k : Nat),
      (((withIndices k ls).map (fun il =>
        (findRefsLine word.data il.2).map
          (fun se => (il.1, se.1, se.2)))).flatten).Nodup from
    h (splitChar '\n' text.data) 0
  intro ls
  induction ls with
  | nil => intro k; simp [withIndices]
  | cons l rest ih =>
    intro k
    simp only [withIndices, List.map_cons, List.flatten_cons]
    rw [List.nodup_append]
    refine ⟨?_, ih (k + 1), ?_⟩
    · refine List.Nodup.map ?_ (refScanAux_nodup l word.data hwd _ _)
      intro a b hab
      obtain ⟨a1, a2⟩ := a
      obtain ⟨b1, b2⟩ := b
      simpa using hab
    · intro x hx hx2
      rw [List.mem_map] at hx
      obtain ⟨se, _, rfl⟩ := hx
      have h3 : k + 1 ≤ k := tagged_flatten_lb word rest (k + 1) _ hx2
      omega

theorem mem_of_contains_eq_true {α : Type} [BEq α] [LawfulBEq α]
    {l : List α} {a : α} (h : l.contains a = true) : a ∈ l :=
  List.mem_of_elem_eq_true h

theorem not_mem_of_contains_eq_false {α : Type} [BEq α] [LawfulBEq α]
    {l : List α} {a : α} (h : l.contains a = false) : a ∉ l := by
  intro hm
  have h2 : l.contains a = true := List.elem_eq_true_of_mem hm
  rw [h2] at h
  exact Bool.noConfusion h

theorem contains_eq_false_of_not_mem {α : Type} [BEq α] [LawfulBEq α]
    {l : List α} {a : α} (h : a ∉ l) : l.contains a = false := by
  cases hc : l.contains a with
  | false => rfl
  | true => exact absurd (mem_of_contains_eq_true hc) h

theorem alInsert_keys {α : Type} (k : String) (v : α) :
    ∀ (l : List (String × α)) (k2 : String),
      k2 ∈ (alInsert k v l).map Prod.fst → k2 = k ∨ k2 ∈ l.map Prod.fst := by
  intro l
  induction l with
  | nil =>
    intro k2 h
    simp [alInsert] at h
    exact Or.inl h
  | cons e rest ih =>
    intro k2 h
    simp only [alInsert] at h
    split at h
    · simp only [List.map_cons, List.mem_cons] at h
      rcases h with h | h
      · exact Or.inl h
      · exact Or.inr (List.mem_cons_of_mem _ h)
    · simp only [List.map_cons, List.mem_cons] at h
      rcases h with h | h
      · exact Or.inr (by simp [h])
      · rcases ih k2 h with h2 | h2
        · exact Or.inl h2
        · exact Or.inr (List.mem_cons_of_mem _ h2)

theorem ciIdentRun_no_dot {l nm rest : List Char}
    (h : ciIdentRun l = some (nm, rest)) : nm.contains '.' = false := by
  cases l with
  | nil => exact Option.noConfusion h
  | cons c r =>
    simp only [ciIdentRun] at h
    split at h
    · next hstart =>
      injection h with h
      injection h with h1 h2
      subst h1
      apply contains_eq_false_of_not_mem
      intro hmem
      rcases List.mem_cons.mp hmem with hd | hd
      · rw [← hd] at hstart
        exact Bool.noConfusion hstart
      · have hp := List.mem_takeWhile_imp hd
        rw [show ('.' : Char) = '.' from rfl] at hp
        have : isCIIdentChar '.' = false := by decide
        rw [hp] at this
        exact Bool.noConfusion this
    · exact Option.noConfusion h

theorem dclRegexMatch_name_no_dot {l : List Char} {nm g2 : List Char}
    {g3 : Option (List Char)} (h : dclRegexMatch l = some (nm, g2, g3)) :
    nm.contains '.' = false := by
  simp only [dclRegexMatch] at h
  split at h
  · exact Option.noConfusion h
  · split at h
    · exact Option.noConfusion h
    · split at h
      · exact Option.noConfusion h
      · next name r3 hident =>
        split at h
        · exact Option.noConfusion h
        · split at h
          · exact Option.noConfusion h
          · injection h with h
            injection h with h1 h2
            subst h1
            exact ciIdentRun_no_dot hident


theorem parse_syn_preserves (m : ChillSemanticModel) (l : String) (n : Nat) :
    (ChillParser._parse_syn m l n).dcls = m.dcls ∧
    (ChillParser._parse_syn m l n).current_scope = m.current_scope := by
  unfold ChillParser._parse_syn ChillSemanticModel.add_synonym
  split <;> exact ⟨rfl, rfl⟩

theorem parse_proc_preserves (m : ChillSemanticModel) (l : String) (n : Nat)
    (all : List String) (i : Nat) :
    (ChillParser._parse_proc m l n all i).dcls = m.dcls ∧
    (ChillParser._parse_proc m l n all i).current_scope = m.current_scope := by
  unfold ChillParser._parse_proc ChillSemanticModel.add_proc
  split <;> exact ⟨rfl, rfl⟩

theorem parse_process_preserves (m : ChillSemanticModel) (l : String) (n : Nat)
    (all : List String) (i : Nat) :
    (ChillParser._parse_process m l n all i).dcls = m.dcls ∧
    (ChillParser._parse_process m l n all i).current_scope = m.current_scope := by
  unfold ChillParser._parse_process ChillSemanticModel.add_process
  split <;> exact ⟨rfl, rfl⟩

theorem parse_signal_preserves (m : ChillSemanticModel) (l : String) (n : Nat) :
    (ChillParser._parse_signal m l n).dcls = m.dcls ∧
    (ChillParser._parse_signal m l n).current_scope = m.current_scope := by
  unfold ChillParser._parse_signal ChillSemanticModel.add_signal
  split <;> exact ⟨rfl, rfl⟩

theorem parse_newmode_preserves (m : ChillSemanticModel) (l : String) (n : Nat)
    {m2 : ChillSemanticModel}
    (h : ChillParser._parse_newmode m l n = some m2) :
    m2.dcls = m.dcls ∧ m2.current_scope = m.current_scope := by
  simp only [ChillParser._parse_newmode, ChillSemanticModel.add_mode] at h
  split at h
  · injection h with h
    subst h
    exact ⟨rfl, rfl⟩
  · split at h
    · exact Option.noConfusion h
    · split at h
      · exact Option.noConfusion h
      · injection h with h
        subst h
        exact ⟨rfl, rfl⟩

theorem parse_dcl_preserves (m : ChillSemanticModel) (l : String) (n : Nat)
    {m2 : ChillSemanticModel}
    (h : ChillParser._parse_dcl m l n = some m2)
    (hscope : m.current_scope = "GLOBAL")
    (hkeys : ∀ k ∈ m.dcls.map Prod.fst, k.data.contains '.' = false) :
    m2.current_scope = "GLOBAL" ∧
    ∀ k ∈ m2.dcls.map Prod.fst, k.data.contains '.' = false := by
  simp only [ChillParser._parse_dcl] at h
  split at h
  · injection h with h
    subst h
    exact ⟨hscope, hkeys⟩
  · next nameL g2 g3 hdcl =>
    split at h
    · exact Option.noConfusion h
    · split at h
      · exact Option.noConfusion h
      · injection h with h
        subst h
        have hname : (String.mk nameL).data.contains '.' = false :=
          dclRegexMatch_name_no_dot hdcl
        constructor
        · simp [ChillSemanticModel.add_dcl, hscope]
        · intro k hk
          simp only [ChillSemanticModel.add_dcl, hscope, ne_eq,
            not_true_eq_false, if_false] at hk
          rcases alInsert_keys _ _ _ _ hk with hk2 | hk2
          · rw [hk2]
            exact hname
          · rcases alInsert_keys _ _ _ _ hk2 with hk3 | hk3
            · rw [hk3]
              exact hname
            · exact hkeys k hk3

theorem parseDeclLine_no_module (m : ChillSemanticModel) (all : List String)
    (i : Nat) (l : String) {m2 : ChillSemanticModel}
    (hline : strStartsWith (upperStr (pyStrip l)) "MODULE" = false)
    (h : parseDeclLine m all i l = some m2)
    (hscope : m.current_scope = "GLOBAL")
    (hkeys : ∀ k ∈ m.dcls.map Prod.fst, k.data.contains '.' = false) :
    m2.current_scope = "GLOBAL" ∧
    ∀ k ∈ m2.dcls.map Prod.fst, k.data.contains '.' = false := by
  simp only [parseDeclLine, hline, Bool.false_eq_true, if_false] at h
  split at h
  · obtain ⟨hd, hs⟩ := parse_newmode_preserves m (pyStrip l) (i + 1) h
    rw [hd, hs]
    exact ⟨hscope, hkeys⟩
  · split at h
    · exact parse_dcl_preserves m (pyStrip l) (i + 1) h hscope hkeys
    · split at h
      · injection h with h
        subst h
        obtain ⟨hd, hs⟩ := parse_syn_preserves m (pyStrip l) (i + 1)
        rw [hd, hs]
        exact ⟨hscope, hkeys⟩
      · split at h
        · injection h with h
          subst h
          obtain ⟨hd, hs⟩ := parse_proc_preserves m (pyStrip l) (i + 1) all i
          rw [hd, hs]
          exact ⟨hscope, hkeys⟩
        · split at h
          · injection h with h
            subst h
            obtain ⟨hd, hs⟩ :=
              parse_process_preserves m (pyStrip l) (i + 1) all i
            rw [hd, hs]
            exact ⟨hscope, hkeys⟩
          · split at h
            · injection h with h
              subst h
              obtain ⟨hd, hs⟩ := parse_signal_preserves m (pyStrip l) (i + 1)
              rw [hd, hs]
              exact ⟨hscope, hkeys⟩
            · injection h with h
              subst h
              exact ⟨hscope, hkeys⟩

theorem parseDeclLoop_no_module :
    ∀ (ls all : List String) (i : Nat) (m : ChillSemanticModel),
      (∀ l ∈ ls, strStartsWith (upperStr (pyStrip l)) "MODULE" = false) →
      m.current_scope = "GLOBAL" →
      (∀ k ∈ m.dcls.map Prod.fst, k.data.contains '.' = false) →
      ∀ m2, parseDeclLoop all ls i m = .ok m2 →
        m2.current_scope = "GLOBAL" ∧
        ∀ k ∈ m2.dcls.map Prod.fst, k.data.contains '.' = false := by
  intro ls
  induction ls with
  | nil =>
    intro all i m _ hscope hkeys m2 h
    injection h with h
    subst h
    exact ⟨hscope, hkeys⟩
  | cons l rest ih =>
    intro all i m hno hscope hkeys m2 h
    simp only [parseDeclLoop] at h
    split at h
    · exact Except.noConfusion h
    · next mid hmid =>
      have hline := hno l (List.mem_cons_self _ _)
      obtain ⟨hs2, hk2⟩ :=
        parseDeclLine_no_module m all i l hline hmid hscope hkeys
      exact ih all (i + 1) mid
        (fun x hx => hno x (List.mem_cons_of_mem _ hx)) hs2 hk2 m2 h

theorem findEndLoop_noEnd (construct : String) :
    ∀ (ls : List String) (i d : Nat),
      (∀ l ∈ ls, "END".data.isPrefixOf (upperL (stripL l.data)) = false) →
      findEndLoop construct ls i d = none := by
  intro ls
  induction ls with
  | nil => intro i d _; rfl
  | cons l rest ih =>
    intro i d h
    have hl := h l (List.mem_cons_self _ _)
    have hr : ∀ x ∈ rest, "END".data.isPrefixOf (upperL (stripL x.data)) = false :=
      fun x hx => h x (List.mem_cons_of_mem _ hx)
    simp only [findEndLoop, hl]
    split
    · exact ih (i + 1) (d + 1) hr
    · split
      · exact ih (i + 1) (d + 1) hr
      · simp only [Bool.false_eq_true, if_false]
        exact ih (i + 1) d hr

theorem prefixAtColumn_eq (l : List Char) :
    ∀ col : Nat, col ≤ l.length →
      prefixAtColumn l col =
        ((l.take col).reverse.takeWhile isWordChar).reverse := by
  intro col
  induction col with
  | zero => intro _; simp [prefixAtColumn]
  | succ n ih =>
    intro h
    have hn : n < l.length := by omega
    have hget : l.getD n ' ' = l[n] := getD_eq_getElem_of_lt l n ' ' hn
    have htake : l.take (n + 1) = l.take n ++ [l[n]] := by
      rw [List.take_succ, List.getElem?_eq_getElem hn]
      rfl
    simp only [prefixAtColumn, hget, htake, List.reverse_append,
      List.reverse_cons, List.reverse_nil, List.nil_append, List.cons_append,
      List.takeWhile_cons]
    by_cases hc : isWordChar l[n] = true
    · simp only [hn, true_and, hc, if_true, List.reverse_cons]
      rw [ih (by omega)]
    · simp only [hn, true_and, hc, if_false]
      simp only [Bool.not_eq_true] at hc
      simp [hc]

/-! ## The claims -/

/-- C1: the spec states that lexical cleanup preserves the line count of
every document, a multi-line block comment leaving one newline per line
crossed, so that recorded line numbers map back to the original text.  The
code removes the newlines inside a block comment (`re.sub` with `DOTALL`
and an empty replacement), so the claim fails: on the three-line document
`blockCommentDoc` the cleaned text has two lines, and the declaration
sitting on line 3 of the original is recorded at `line_number` 2.  This
theorem evaluates the code at the failing input. -/
theorem C1_cleanup_loses_line_count :
    lineCount blockCommentDoc = 3 ∧
    ChillParser._preprocess blockCommentDoc = "\nDCL x INT;" ∧
    lineCount (ChillParser._preprocess blockCommentDoc) = 2 ∧
    (parseChill blockCommentDoc).bind
      (fun m => (alLookup "x" m.dcls).map DclDefinition.line_number) =
      some 2 :=
  ⟨by decide, by decide, by decide, by decide⟩

/-- C2: the spec states that the scanner is total and a line whose keyword
matches but whose detailed pattern fails is silently skipped, no exception
escaping `parse`.  Skipping does happen (second conjunct: `DCL x;` adds no
entity), but the claim fails on `emptyModeDcl`: there the `DCL` pattern
matches with a whitespace-only mode text, which strips to the empty string,
and `_is_builtin_mode` indexes the first element of the split of the
empty string — an `IndexError` escapes
`parse` (embedded as `none`).  This theorem evaluates the code at the
failing input. -/
theorem C2_parse_raises_on_blank_mode :
    parseChill emptyModeDcl = none ∧
    (parseChill "DCL x;").map ChillSemanticModel.dcls = some [] :=
  ⟨by decide, by decide⟩

/-- C4, counterexample: the claim says that after parsing `twoScopesDoc`
the global `x` stays retrievable under the bare name and the
procedure-local `x` under the qualified key `p.x`.  In the code only
`_parse_module` pushes a scope — `_parse_proc` does not — so both
declarations are added at global scope: no key `p.x` exists, the bare name
holds the later (line 3, BOOL) declaration, and the global INT one is
gone. -/
theorem C4_no_proc_scope_counterexample :
    (parseChill twoScopesDoc).map (fun m =>
      (alLookup "p.x" m.dcls,
       (alLookup "x" m.dcls).map (fun d => (d.mode, d.line_number)),
       m.dcls.map Prod.fst)) =
    some (none, some (ChillMode.BOOL, 3), ["x"]) := by decide

/-- C4, amended: procedure headers do not open a scope (only `MODULE`
lines do), so the two declarations of `x` collide at global scope: the
bare-name slot holds the later, procedure-body declaration (last write
wins, `parent_scope` still `GLOBAL`), and no `p.x` key is created.  Scoped
`scope.name` keys do arise for declarations parsed while a module scope is
active, as `moduleScopeDoc` shows; conversely (final conjunct, in general)
on any source none of whose cleaned lines starts with `MODULE`, the scope
stays `GLOBAL` and every symbol-table key is an undotted bare name. -/
theorem C4_scope_keys_amended :
    ((parseChill twoScopesDoc).map (fun m =>
       (m.dcls.map Prod.fst,
        (alLookup "x" m.dcls).map (fun d => (d.mode, d.line_number)),
        alLookup "p.x" m.dcls)) =
     some (["x"], some (ChillMode.BOOL, 3), none)) ∧
    (((parseChill twoScopesDoc).bind (fun m => alLookup "x" m.dcls)).map
       DclDefinition.parent_scope = some (some "GLOBAL")) ∧
    ((parseChill moduleScopeDoc).map (fun m => m.dcls.map Prod.fst) =
     some ["x", "M.x"]) ∧
    (∀ (source : String) (m : ChillSemanticModel),
      (∀ l ∈ (splitChar '\n' (ChillParser._preprocess source).data).map String.mk,
        strStartsWith (upperStr (pyStrip l)) "MODULE" = false) →
      parseChill source = some m →
      m.current_scope = "GLOBAL" ∧
      ∀ k ∈ m.dcls.map Prod.fst, k.data.contains '.' = false) := by
  refine ⟨by decide, by decide, by decide, ?_⟩
  intro source m hno hm
  have hp : parseChill source =
      (match ChillParser._parse_declarations (ChillParser._preprocess source) with
       | .ok mm => some mm
       | .error _ => none) := by
    unfold parseChill ChillParser.parse
    split <;> rfl
  rw [hp] at hm
  cases heq : ChillParser._parse_declarations (ChillParser._preprocess source) with
  | ok mm =>
    rw [heq] at hm
    injection hm with hm
    subst hm
    unfold ChillParser._parse_declarations at heq
    exact parseDeclLoop_no_module _ _ 0 {} hno rfl (by simp) _ heq
  | error pm =>
    rw [heq] at hm
    exact Option.noConfusion hm

/-- C4, witness: the general conjunct of the amended claim applied to the
module-free document of the scenario. -/
theorem C4_scope_keys_witness :
    (parseChill twoScopesDoc).map ChillSemanticModel.current_scope =
      some "GLOBAL" := by
  cases hm : parseChill twoScopesDoc with
  | none => exact absurd hm (by decide)
  | some m =>
    have h := (C4_scope_keys_amended.2.2.2 twoScopesDoc m (by decide) hm).1
    simp [h]

/-- C5, counterexample: the claim says an entry containing no direction
keyword gets direction `IN`.  Direction detection in the code is a plain
substring test on the uppercased entry, so `outer INT` — which contains
none of `IN`, `OUT`, `INOUT` as a whole word — is given direction `OUT`
because `OUT` occurs inside `OUTER`. -/
theorem C5_substring_direction_counterexample :
    ChillParser._parse_parameters "outer INT" = [("outer", "INT", "OUT")] ∧
    hasWordCI "outer INT" "INOUT" = false ∧
    hasWordCI "outer INT" "OUT" = false ∧
    hasWordCI "outer INT" "IN" = false :=
  ⟨by decide, by decide, by decide, by decide⟩

/-- C5, amended: for each comma-separated entry the direction is chosen by
substring tests on the uppercased stripped entry, with `INOUT` taking
precedence over `OUT`; entries whose uppercase contains neither `INOUT`
nor `OUT` as a substring get the default direction `IN` (a contained `IN`
only triggers whole-word stripping, never a different direction). -/
theorem C5_direction_rule_amended (p : String) :
    (containsSub (upperStr p) "INOUT" = true → paramDirection p = "INOUT") ∧
    (containsSub (upperStr p) "INOUT" = false →
      containsSub (upperStr p) "OUT" = true → paramDirection p = "OUT") ∧
    (containsSub (upperStr p) "INOUT" = false →
      containsSub (upperStr p) "OUT" = false → paramDirection p = "IN") ∧
    (∀ n md d, parseParamEntry p = some (n, md, d) →
      d = paramDirection (pyStrip p)) := by
  refine ⟨fun h1 => ?_, fun h1 h2 => ?_, fun h1 h2 => ?_, fun n md d h => ?_⟩
  · simp [paramDirection, h1]
  · simp [paramDirection, h1, h2]
  · simp [paramDirection, h1, h2]
  · simp only [parseParamEntry] at h
    split at h
    · exact Option.noConfusion h
    · split at h
      · simp only [Option.some.injEq, Prod.mk.injEq] at h
        exact h.2.2.symm
      · simp only [Option.some.injEq, Prod.mk.injEq] at h
        exact h.2.2.symm
      · exact Option.noConfusion h

/-- C5, witness for the amended rule at concrete entries. -/
theorem C5_direction_rule_witness :
    paramDirection "INOUT buf CHARS" = "INOUT" ∧
    paramDirection "outer INT" = "OUT" ∧
    paramDirection "input INT" = "IN" ∧
    (∀ d, parseParamEntry "outer INT" = some ("outer", "INT", d) →
      d = paramDirection "outer INT") :=
  ⟨(C5_direction_rule_amended "INOUT buf CHARS").1 (by decide),
   (C5_direction_rule_amended "outer INT").2.1 (by decide) (by decide),
   (C5_direction_rule_amended "input INT").2.2.1 (by decide) (by decide),
   fun d h => by
     have h2 := (C5_direction_rule_amended "outer INT").2.2.2 "outer" "INT" d h
     rw [h2]
     rfl⟩

/-- C7: body-extent resolution.  First conjunct: the spec scenario — the
`handler` procedure of `handlerDoc` gets parameter list
`[(input, INT, IN)]`, returns mode `INT` and `line_end` 5, the 1-based
line of its matching `END`.  Second conjunct: a nested `BEGIN`/`END` pair
is counted by the depth counter.  Third conjunct: when no line after the
header starts with `END`, the depth never returns to zero and `line_end`
falls back to the header line itself. -/
theorem C7_find_end_behaviour :
    (((parseChill handlerDoc).bind
        (fun m => alLookup "handler" m.procs)).map
        (fun pr => (pr.parameters, pr.returns_mode, pr.line_end)) =
      some ([("input", "INT", "IN")], some "INT", 5))
  ∧ ChillParser._find_end ["p: PROC();", "BEGIN ;", "END;", "END p;"] 0 "PROC" = 4
  ∧ (∀ (ls : List String) (start_idx : Nat) (construct : String),
      (∀ l ∈ ls.drop (start_idx + 1),
        "END".data.isPrefixOf (upperL (stripL l.data)) = false) →
      ChillParser._find_end ls start_idx construct = start_idx + 1) := by
  refine ⟨by decide, by decide, fun ls start_idx construct h => ?_⟩
  unfold ChillParser._find_end
  rw [findEndLoop_noEnd construct _ _ _ h]
  rfl

/-- C7, witness: the fallback conjunct applied to a concrete unterminated
procedure. -/
theorem C7_find_end_witness :
    ChillParser._find_end ["a: PROC(x INT);", "DCL y INT;"] 0 "PROC" = 1 :=
  C7_find_end_behaviour.2.2 ["a: PROC(x INT);", "DCL y INT;"] 0 "PROC"
    (by decide)

/-- C8: `parse` starts by resetting every piece of instance state from the
source alone, so its result — returned model and final instance state
alike — does not depend on the parser instance it runs on, and a second
`parse` of the same text on the same instance returns the same model. -/
theorem C8_parse_no_hidden_state :
    (∀ (p1 p2 : ChillParser) (source : String),
        ChillParser.parse p1 source = ChillParser.parse p2 source)
  ∧ (∀ (p : ChillParser) (source : String),
        (ChillParser.parse (ChillParser.parse p source).2 source).1 =
          (ChillParser.parse p source).1) :=
  ⟨fun _ _ _ => rfl, fun _ _ => rfl⟩

/-- C3: the completion prefix law.  Soundness: every returned name
uppercases to a string starting with the uppercased extracted prefix.
Completeness: every reserved word, predefined name, declaration (stored
under an undotted key), mode, procedure and synonym name whose uppercase
form starts with the uppercased prefix appears, with its kind label.  The
final conjunct identifies the extracted prefix with the maximal
word-character run ending at the cursor (for a cursor inside the line). -/
theorem C3_completion_prefix_law (m : ChillSemanticModel) (txt : String)
    (column : Nat) :
    (∀ p ∈ get_completions_at_position m txt column,
        strStartsWith (upperStr p.1)
          (String.mk (upperL (prefixAtColumn txt.data column))) = true)
  ∧ (∀ kw ∈ CHILL_RESERVED_WORDS,
      strStartsWith (upperStr kw)
        (String.mk (upperL (prefixAtColumn txt.data column))) = true →
      (kw, "keyword") ∈ get_completions_at_position m txt column)
  ∧ (∀ pd ∈ CHILL_PREDEFINED,
      strStartsWith (upperStr pd)
        (String.mk (upperL (prefixAtColumn txt.data column))) = true →
      (pd, "builtin") ∈ get_completions_at_position m txt column)
  ∧ (∀ e ∈ m.dcls, e.1.data.contains '.' = false →
      strStartsWith (upperStr e.1)
        (String.mk (upperL (prefixAtColumn txt.data column))) = true →
      (e.1, "DCL " ++ e.2.mode.value) ∈ get_completions_at_position m txt column)
  ∧ (∀ e ∈ m.modes,
      strStartsWith (upperStr e.1)
        (String.mk (upperL (prefixAtColumn txt.data column))) = true →
      (e.1, "mode") ∈ get_completions_at_position m txt column)
  ∧ (∀ e ∈ m.procs,
      strStartsWith (upperStr e.1)
        (String.mk (upperL (prefixAtColumn txt.data column))) = true →
      (e.1, "procedure") ∈ get_completions_at_position m txt column)
  ∧ (∀ e ∈ m.synonyms,
      strStartsWith (upperStr e.1)
        (String.mk (upperL (prefixAtColumn txt.data column))) = true →
      (e.1, "constant") ∈ get_completions_at_position m txt column)
  ∧ (column ≤ txt.data.length →
      prefixAtColumn txt.data column =
        ((txt.data.take column).reverse.takeWhile isWordChar).reverse) := by
  refine ⟨?_, ?_, ?_, ?_, ?_, ?_, ?_,
    fun h => prefixAtColumn_eq txt.data column h⟩
  · intro p hp
    unfold get_completions_at_position at hp
    simp only [List.mem_append] at hp
    rcases hp with ((((hp | hp) | hp) | hp) | hp) | hp
    · rw [List.mem_map] at hp
      obtain ⟨kw, hkw, rfl⟩ := hp
      rw [List.mem_filter] at hkw
      rw [upper_closed_reserved kw hkw.1]
      exact hkw.2
    · rw [List.mem_map] at hp
      obtain ⟨pd, hpd, rfl⟩ := hp
      rw [List.mem_filter] at hpd
      rw [upper_closed_predefined pd hpd.1]
      exact hpd.2
    · rw [List.mem_map] at hp
      obtain ⟨e, he, rfl⟩ := hp
      rw [List.mem_filter] at he
      have hc := he.2
      rw [Bool.and_eq_true] at hc
      exact hc.2
    · rw [List.mem_map] at hp
      obtain ⟨e, he, rfl⟩ := hp
      rw [List.mem_filter] at he
      exact he.2
    · rw [List.mem_map] at hp
      obtain ⟨e, he, rfl⟩ := hp
      rw [List.mem_filter] at he
      exact he.2
    · rw [List.mem_map] at hp
      obtain ⟨e, he, rfl⟩ := hp
      rw [List.mem_filter] at he
      exact he.2
  · intro kw hkw hstart
    rw [upper_closed_reserved kw hkw] at hstart
    unfold get_completions_at_position
    simp only [List.mem_append]
    exact Or.inl (Or.inl (Or.inl (Or.inl (Or.inl
      (List.mem_map.mpr ⟨kw, List.mem_filter.mpr ⟨hkw, hstart⟩, rfl⟩)))))
  · intro pd hpd hstart
    rw [upper_closed_predefined pd hpd] at hstart
    unfold get_completions_at_position
    simp only [List.mem_append]
    exact Or.inl (Or.inl (Or.inl (Or.inl (Or.inr
      (List.mem_map.mpr ⟨pd, List.mem_filter.mpr ⟨hpd, hstart⟩, rfl⟩)))))
  · intro e he hdot hstart
    unfold get_completions_at_position
    simp only [List.mem_append]
    refine Or.inl (Or.inl (Or.inl (Or.inr
      (List.mem_map.mpr ⟨e, List.mem_filter.mpr ⟨he, ?_⟩, rfl⟩))))
    rw [Bool.and_eq_true, hdot]
    exact ⟨rfl, hstart⟩
  · intro e he hstart
    unfold get_completions_at_position
    simp only [List.mem_append]
    exact Or.inl (Or.inl (Or.inr
      (List.mem_map.mpr ⟨e, List.mem_filter.mpr ⟨he, hstart⟩, rfl⟩)))
  · intro e he hstart
    unfold get_completions_at_position
    simp only [List.mem_append]
    exact Or.inl (Or.inr
      (List.mem_map.mpr ⟨e, List.mem_filter.mpr ⟨he, hstart⟩, rfl⟩))
  · intro e he hstart
    unfold get_completions_at_position
    simp only [List.mem_append]
    exact Or.inr (List.mem_map.mpr ⟨e, List.mem_filter.mpr ⟨he, hstart⟩, rfl⟩)

/-- C3, witness: the law applied to the demo model at concrete cursor
positions. -/
theorem C3_completion_witness :
    ("CONTEXT", "keyword") ∈ get_completions_at_position demoModel "DCL co" 6
  ∧ ("COS", "builtin") ∈ get_completions_at_position demoModel "DCL co" 6
  ∧ ("count", "DCL INT") ∈ get_completions_at_position demoModel "DCL co" 6
  ∧ ("counter", "mode") ∈ get_completions_at_position demoModel "DCL co" 6
  ∧ ("handler", "procedure") ∈ get_completions_at_position demoModel "h" 1
  ∧ ("max_size", "constant") ∈ get_completions_at_position demoModel "ma" 2
  ∧ strStartsWith (upperStr "CONTEXT")
      (String.mk (upperL (prefixAtColumn "DCL co".data 6))) = true :=
  ⟨(C3_completion_prefix_law demoModel "DCL co" 6).2.1 "CONTEXT" (by decide)
      (by decide),
   (C3_completion_prefix_law demoModel "DCL co" 6).2.2.1 "COS" (by decide)
      (by decide),
   (C3_completion_prefix_law demoModel "DCL co" 6).2.2.2.1
      ("count", { name := "count", mode := .INT, line_number := 2 })
      (by decide) (by decide) (by decide),
   (C3_completion_prefix_law demoModel "DCL co" 6).2.2.2.2.1
      ("counter", { name := "counter", base_mode := .RANGE, line_number := 1 })
      (by decide) (by decide),
   (C3_completion_prefix_law demoModel "h" 1).2.2.2.2.2.1
      ("handler", { name := "handler", parameters := [("input", "INT", "IN")],
                    returns_mode := some "INT", line_start := 5, line_end := 7 })
      (by decide) (by decide),
   (C3_completion_prefix_law demoModel "ma" 2).2.2.2.2.2.2.1
      ("max_size", { name := "max_size", value := "100", line_number := 3 })
      (by decide) (by decide),
   (C3_completion_prefix_law demoModel "DCL co" 6).1 ("CONTEXT", "keyword")
      ((C3_completion_prefix_law demoModel "DCL co" 6).2.1 "CONTEXT"
        (by decide) (by decide))⟩

/-- C6: reference enumeration is case-insensitive and whole-word.  For a
non-empty word made of word characters, the result contains `(i, s, e)`
exactly when the word occurs (ignoring case) at 0-based column `s` of
0-based line `i`, delimited on both sides by word boundaries, with
`e = s + len(word)`; the result has no duplicate span; and on the line
`Count accounting`, searching for `count` yields exactly the `Count`
occurrence, not the one buried in `accounting`. -/
theorem C6_references_whole_word (text word : String) (hw : word ≠ "")
    (hwc : ∀ c ∈ word.data, isWordChar c = true) :
    (∀ i s e, (i, s, e) ∈ referencesInText text word ↔
      ∃ l, (splitChar '\n' text.data)[i]? = some l ∧
        wholeWordOccurSpec l word.data s = true ∧
        e = s + word.data.length)
  ∧ (referencesInText text word).Nodup
  ∧ referencesInText "Count accounting" "count" = [(0, 0, 5)] :=
  ⟨fun i s e => referencesInText_mem text word hw hwc i s e,
   referencesInText_nodup text word hw, by decide⟩

/-- C6, witness: the characterisation applied at the scenario input. -/
theorem C6_references_witness :
    (0, 0, 5) ∈ referencesInText "Count accounting" "count" :=
  ((C6_references_whole_word "Count accounting" "count" (by decide)
      (by decide)).1 0 0 5).mpr
    ⟨"Count accounting".data, by decide, by decide, by decide⟩

/-- C9: hover precedence.  A reserved word always hits the first arm: the
description is the fixed reserved-word rendering, independent of the
model, and never empty (scenario: `MODULE` on an empty model).  Below the
two name-set arms, the lookup order is declaration, mode, procedure,
synonym, each rendered by its formatter, and `none` comes back only when
every arm misses. -/
theorem C9_hover_precedence :
    (∀ (m1 m2 : ChillSemanticModel) (w : String),
        CHILL_RESERVED_WORDS.contains (upperStr w) = true →
        get_hover_info m1 w = some (reservedHoverText w) ∧
        get_hover_info m1 w = get_hover_info m2 w ∧
        reservedHoverText w ≠ "")
  ∧ get_hover_info {} "MODULE" = some "**MODULE** - CHILL reserved word"
  ∧ (∀ (m : ChillSemanticModel) (w : String),
      CHILL_RESERVED_WORDS.contains (upperStr w) = false →
      ((CHILL_PREDEFINED.contains (upperStr w) = true →
          get_hover_info m w = some (predefinedHoverText w))
       ∧ (CHILL_PREDEFINED.contains (upperStr w) = false →
          ((∀ d, m.get_dcl w = some d →
              get_hover_info m w = some (dclHoverText w d))
           ∧ (m.get_dcl w = none → ∀ md, m.get_mode w = some md →
              get_hover_info m w = some (modeHoverText w md))
           ∧ (m.get_dcl w = none → m.get_mode w = none →
              ∀ pr, m.get_proc w = some pr →
              get_hover_info m w = some (procHoverText w pr))
           ∧ (m.get_dcl w = none → m.get_mode w = none → m.get_proc w = none →
              ∀ sy, alLookup w m.synonyms = some sy →
              get_hover_info m w = some (synHoverText w sy))
           ∧ (m.get_dcl w = none → m.get_mode w = none → m.get_proc w = none →
              alLookup w m.synonyms = none →
              get_hover_info m w = none))))) := by
  refine ⟨?_, by decide, ?_⟩
  · intro m1 m2 w hres
    have hmem := mem_of_contains_eq_true hres
    refine ⟨by simp [get_hover_info, hres, hmem],
            by simp [get_hover_info, hres, hmem], ?_⟩
    intro hne
    have hd := congrArg String.data hne
    simp [String.data_append, reservedHoverText] at hd
  · intro m w hres
    have hmem := not_mem_of_contains_eq_false hres
    refine ⟨fun hpre => by
      simp [get_hover_info, hres, hmem, hpre, mem_of_contains_eq_true hpre],
      fun hpre => ?_⟩
    have hmem2 := not_mem_of_contains_eq_false hpre
    refine ⟨fun d hd => by
              simp [get_hover_info, hres, hmem, hpre, hmem2, hd],
            fun hd md hmd => by
              simp [get_hover_info, hres, hmem, hpre, hmem2, hd, hmd],
            fun hd hmd pr hpr => by
              simp [get_hover_info, hres, hmem, hpre, hmem2, hd, hmd, hpr],
            fun hd hmd hpr sy hsy => by
              simp [get_hover_info, hres, hmem, hpre, hmem2, hd, hmd, hpr, hsy],
            fun hd hmd hpr hsy => by
              simp [get_hover_info, hres, hmem, hpre, hmem2, hd, hmd, hpr, hsy]⟩

/-- C9, witness: each arm exercised on the demo model. -/
theorem C9_hover_witness :
    get_hover_info demoModel "module" = some (reservedHoverText "module")
  ∧ get_hover_info demoModel "module" = get_hover_info {} "module"
  ∧ get_hover_info demoModel "abs" = some (predefinedHoverText "abs")
  ∧ get_hover_info demoModel "count" =
      some (dclHoverText "count" { name := "count", mode := .INT, line_number := 2 })
  ∧ get_hover_info demoModel "counter" =
      some (modeHoverText "counter"
        { name := "counter", base_mode := .RANGE, line_number := 1 })
  ∧ get_hover_info demoModel "handler" =
      some (procHoverText "handler"
        { name := "handler", parameters := [("input", "INT", "IN")],
          returns_mode := some "INT", line_start := 5, line_end := 7 })
  ∧ get_hover_info demoModel "max_size" =
      some (synHoverText "max_size"
        { name := "max_size", value := "100", line_number := 3 })
  ∧ get_hover_info demoModel "zzq" = none :=
  ⟨(C9_hover_precedence.1 demoModel {} "module" (by decide)).1,
   (C9_hover_precedence.1 demoModel {} "module" (by decide)).2.1,
   (C9_hover_precedence.2.2 demoModel "abs" (by decide)).1 (by decide),
   ((C9_hover_precedence.2.2 demoModel "count" (by decide)).2 (by decide)).1
     _ (by decide),
   ((C9_hover_precedence.2.2 demoModel "counter" (by decide)).2 (by decide)).2.1
     (by decide) _ (by decide),
   ((C9_hover_precedence.2.2 demoModel "handler" (by decide)).2 (by decide)).2.2.1
     (by decide) (by decide) _ (by decide),
   ((C9_hover_precedence.2.2 demoModel "max_size" (by decide)).2 (by decide)).2.2.2.1
     (by decide) (by decide) (by decide) _ (by decide),
   ((C9_hover_precedence.2.2 demoModel "zzq" (by decide)).2 (by decide)).2.2.2.2
     (by decide) (by decide) (by decide) (by decide)⟩

/-- C10: a name held only by the process table or only by the signal table
(and not a reserved or predefined word) is invisible to the query layer:
hover returns the no-information value and completion never lists it for
any line and cursor, even though the entity itself shows up in the
document-symbol enumeration with its kind. -/
theorem C10_process_signal_invisible (m : ChillSemanticModel) (w : String)
    (h1 : CHILL_RESERVED_WORDS.contains (upperStr w) = false)
    (h2 : CHILL_PREDEFINED.contains (upperStr w) = false)
    (h3 : alLookup (m.current_scope ++ "." ++ w) m.dcls = none)
    (h4 : alLookup w m.dcls = none)
    (h5 : alLookup w m.modes = none)
    (h6 : alLookup w m.procs = none)
    (h7 : alLookup w m.synonyms = none) :
    get_hover_info m w = none
  ∧ (∀ (txt : String) (column : Nat) (kind : String),
      (w, kind) ∉ get_completions_at_position m txt column)
  ∧ (∀ pd, alLookup w m.processes = some pd →
      (w, "PROCESS", pd.line_start, pd.line_end) ∈ m.get_all_symbols)
  ∧ (∀ sg, alLookup w m.signals = some sg →
      (w, "SIGNAL", sg.line_number, sg.line_number) ∈ m.get_all_symbols) := by
  have hdcl : m.get_dcl w = none := by
    simp [ChillSemanticModel.get_dcl, h3, h4]
  refine ⟨?_, ?_, ?_, ?_⟩
  · simp [get_hover_info, h1, h2, not_mem_of_contains_eq_false h1,
      not_mem_of_contains_eq_false h2, hdcl, ChillSemanticModel.get_mode,
      ChillSemanticModel.get_proc, h5, h6, h7]
  · intro txt column kind hmem
    unfold get_completions_at_position at hmem
    simp only [List.mem_append] at hmem
    rcases hmem with ((((hmem | hmem) | hmem) | hmem) | hmem) | hmem
    · rw [List.mem_map] at hmem
      obtain ⟨kw, hkw, heq⟩ := hmem
      rw [List.mem_filter] at hkw
      have hkww : kw = w := congrArg Prod.fst heq
      subst hkww
      rw [upper_closed_reserved kw hkw.1] at h1
      exact not_mem_of_contains_eq_false h1 hkw.1
    · rw [List.mem_map] at hmem
      obtain ⟨pd, hpd, heq⟩ := hmem
      rw [List.mem_filter] at hpd
      have hkww : pd = w := congrArg Prod.fst heq
      subst hkww
      rw [upper_closed_predefined pd hpd.1] at h2
      exact not_mem_of_contains_eq_false h2 hpd.1
    · rw [List.mem_map] at hmem
      obtain ⟨e, he, heq⟩ := hmem
      rw [List.mem_filter] at he
      have hkww : e.1 = w := congrArg Prod.fst heq
      have hin : (w, e.2) ∈ m.dcls := by
        rw [← hkww]
        exact he.1
      exact (alLookup_eq_none w m.dcls).mp h4 e.2 hin
    · rw [List.mem_map] at hmem
      obtain ⟨e, he, heq⟩ := hmem
      rw [List.mem_filter] at he
      have hkww : e.1 = w := congrArg Prod.fst heq
      have hin : (w, e.2) ∈ m.modes := by
        rw [← hkww]
        exact he.1
      exact (alLookup_eq_none w m.modes).mp h5 e.2 hin
    · rw [List.mem_map] at hmem
      obtain ⟨e, he, heq⟩ := hmem
      rw [List.mem_filter] at he
      have hkww : e.1 = w := congrArg Prod.fst heq
      have hin : (w, e.2) ∈ m.procs := by
        rw [← hkww]
        exact he.1
      exact (alLookup_eq_none w m.procs).mp h6 e.2 hin
    · rw [List.mem_map] at hmem
      obtain ⟨e, he, heq⟩ := hmem
      rw [List.mem_filter] at he
      have hkww : e.1 = w := congrArg Prod.fst heq
      have hin : (w, e.2) ∈ m.synonyms := by
        rw [← hkww]
        exact he.1
      exact (alLookup_eq_none w m.synonyms).mp h7 e.2 hin
  · intro pd hpd
    unfold ChillSemanticModel.get_all_symbols
    rw [mem_sortByLine]
    simp only [List.mem_append]
    exact Or.inl (Or.inl (Or.inr
      (List.mem_map.mpr ⟨(w, pd), alLookup_some_mem hpd, rfl⟩)))
  · intro sg hsg
    unfold ChillSemanticModel.get_all_symbols
    rw [mem_sortByLine]
    simp only [List.mem_append]
    exact Or.inr (List.mem_map.mpr ⟨(w, sg), alLookup_some_mem hsg, rfl⟩)

/-- C10, witness: the invisibility of the demo process `worker` and signal
`alarm`. -/
theorem C10_invisibility_witness :
    get_hover_info demoModel "worker" = none
  ∧ (∀ kind, ("worker", kind) ∉ get_completions_at_position demoModel "wor" 3)
  ∧ ("worker", "PROCESS", 10, 12) ∈ demoModel.get_all_symbols
  ∧ get_hover_info demoModel "alarm" = none
  ∧ ("alarm", "SIGNAL", 4, 4) ∈ demoModel.get_all_symbols := by
  have hworker := C10_process_signal_invisible demoModel "worker" (by decide)
    (by decide) (by decide) (by decide) (by decide) (by decide) (by decide)
  have halarm := C10_process_signal_invisible demoModel "alarm" (by decide)
    (by decide) (by decide) (by decide) (by decide) (by decide) (by decide)
  exact ⟨hworker.1, fun kind => hworker.2.1 "wor" 3 kind,
    hworker.2.2.1 { name := "worker", line_start := 10, line_end := 12 }
      (by decide),
    halarm.1,
    halarm.2.2.2 { name := "alarm", line_number := 4 } (by decide)⟩

end Chill
